import Mathlib

/-!
Verification of the Alfred file-utility agent (`cli/alfred.py`): the
conversion-tool resolution engine, the capability registry, the command
safety filter, the in-process data converter, the category table and the
agent dispatch/execute layer, shallowly embedded in Lean.

Python strings are modelled as `List Char` (or Lean `String` where no
character-level processing happens).  `str.lower`/`str.strip` are modelled
on their ASCII fragment, which is exact for every string the program's
static tables contain.  Filesystem and library probes are an explicit
environment (`ToolEnv`); external libraries (PyYAML, openpyxl, toml,
Pillow) are opaque collaborators whose outputs are modelled as constructors.
-/

namespace Alfred

/-! ### Python string primitives (ASCII fragment) -/

/-- Shorthand: the character list of a string literal. -/
def S (s : String) : List Char := s.data

/-- Python `str.lower`, ASCII fragment (all table entries are ASCII). -/
def pyLower (l : List Char) : List Char := l.map Char.toLower

/-- `pyLower` on Lean strings. -/
def pyLowerS (s : String) : String := String.mk (pyLower s.data)

/-- Python whitespace for `str.strip`: space, \t, \n, \r, \x0b, \x0c. -/
def isPyWS (c : Char) : Bool :=
  c == ' ' || c == '\t' || c == '\n' || c == '\r' || c == '\x0b' || c == '\x0c'

/-- Drop trailing Python whitespace. -/
def stripEnd (l : List Char) : List Char := (l.reverse.dropWhile isPyWS).reverse

/-- Python `str.strip()` (no argument): trim whitespace at both ends. -/
def pyStrip (l : List Char) : List Char := stripEnd (l.dropWhile isPyWS)

/-- Python `p in s` substring containment. -/
def isSubstr (p : List Char) : List Char → Bool
  | [] => p.isEmpty
  | c :: rest => p.isPrefixOf (c :: rest) || isSubstr p rest

/-! ### Capability registry (`SIPS_FORMATS` … `_tool_supports_target`) -/

def SIPS_FORMATS : List String :=
  ["jpeg", "jpg", "png", "tiff", "tif", "bmp", "gif", "pict", "pdf", "heic"]
def AFCONVERT_FORMATS : List String :=
  ["aac", "m4a", "wav", "aiff", "aif", "caf"]
def TEXTUTIL_FORMATS : List String :=
  ["txt", "html", "rtf", "rtfd", "doc", "docx", "wordml", "odt", "webarchive"]
def PANDOC_FORMATS : List String :=
  ["html", "pdf", "docx", "md", "rst", "tex", "epub", "txt", "rtf"]
def FFMPEG_FORMATS : List String :=
  ["mp3", "wav", "aac", "m4a", "flac", "ogg", "mp4", "avi", "mkv", "mov", "webm", "gif"]
def MAGICK_FORMATS : List String :=
  ["jpg", "jpeg", "png", "gif", "webp", "bmp", "tiff", "ico", "svg", "pdf"]
def PILLOW_FORMATS : List String :=
  ["jpg", "jpeg", "png", "bmp", "gif", "tiff", "tif", "webp", "ico", "pdf", "heic", "heif"]
def PYDUB_FORMATS : List String :=
  ["mp3", "wav", "flac", "ogg", "aac", "m4a", "aiff"]
def PY_DOCX_FORMATS : List String := ["docx"]
def PY_MARKDOWN_FORMATS : List String := ["html"]
def PY_PDF_FORMATS : List String := ["pdf"]
def PY_YAML_FORMATS : List String := ["yaml", "yml"]
def PY_XLSX_FORMATS : List String := ["xlsx"]
def PY_TOML_FORMATS : List String := ["toml"]
def PY_EPUB_FORMATS : List String := ["epub"]

/-- `_tool_supports_target` from the source: case-normalizes the target and
checks membership in the tool's static format set; `python` is always true,
unknown tools are false. -/
def _tool_supports_target (tool : String) (target : String) : Bool :=
  let t := pyLowerS target
  if tool == "python" then true
  else if tool == "sips" then SIPS_FORMATS.contains t
  else if tool == "afconvert" then AFCONVERT_FORMATS.contains t
  else if tool == "textutil" then TEXTUTIL_FORMATS.contains t
  else if tool == "pandoc" then PANDOC_FORMATS.contains t
  else if tool == "ffmpeg" then FFMPEG_FORMATS.contains t
  else if tool == "magick" then MAGICK_FORMATS.contains t
  else if tool == "pillow" then PILLOW_FORMATS.contains t
  else if tool == "pydub" then PYDUB_FORMATS.contains t
  else if tool == "py_docx" then PY_DOCX_FORMATS.contains t
  else if tool == "py_markdown" then PY_MARKDOWN_FORMATS.contains t
  else if tool == "py_pdf" then PY_PDF_FORMATS.contains t
  else if tool == "py_yaml" then PY_YAML_FORMATS.contains t
  else if tool == "py_xlsx" then PY_XLSX_FORMATS.contains t
  else if tool == "py_toml" then PY_TOML_FORMATS.contains t
  else if tool == "py_epub" then PY_EPUB_FORMATS.contains t
  else false

/-- The closed set of tool identifiers `_tool_supports_target` knows. -/
def KNOWN_TOOLS : List String :=
  ["python", "sips", "afconvert", "textutil", "pandoc", "ffmpeg", "magick",
   "pillow", "pydub", "py_docx", "py_markdown", "py_pdf", "py_yaml",
   "py_xlsx", "py_toml", "py_epub"]

/-! ### Availability prober and tool resolver -/

/-- Runtime environment: which external commands the availability prober
(`check_command_availability`: managed bin dir, then `PATH`) reports, and
which optional bundled libraries imported successfully at startup. -/
structure ToolEnv where
  avail : String → Bool
  hasPillow : Bool
  hasPydub : Bool
  hasPythonDocx : Bool
  hasMarkdown : Bool
  hasFpdf : Bool
  hasPyyaml : Bool
  hasOpenpyxl : Bool
  hasToml : Bool
  hasEbooklib : Bool

/-- `check_command_availability`: a pure filesystem/PATH probe, modelled by
the environment oracle. -/
def check_command_availability (env : ToolEnv) (cmd : String) : Bool := env.avail cmd

/-- `_resolve_tool` from the source: first candidate in list order whose
per-identifier availability rule holds. -/
def _resolve_tool (env : ToolEnv) : List String → Option String
  | [] => none
  | tool :: rest =>
    if tool == "python" then some "python"
    else if tool == "sips" then some "sips"
    else if tool == "afconvert" then some "afconvert"
    else if tool == "textutil" then some "textutil"
    else if tool == "ffmpeg" && check_command_availability env "ffmpeg" then some "ffmpeg"
    else if tool == "magick" && (check_command_availability env "magick" || check_command_availability env "convert") then some "magick"
    else if tool == "pandoc" && check_command_availability env "pandoc" then some "pandoc"
    else if tool == "pillow" && env.hasPillow then some "pillow"
    else if tool == "pydub" && env.hasPydub then some "pydub"
    else if tool == "py_docx" && env.hasPythonDocx then some "py_docx"
    else if tool == "py_markdown" && env.hasMarkdown then some "py_markdown"
    else if tool == "py_pdf" && env.hasFpdf then some "py_pdf"
    else if tool == "py_yaml" && env.hasPyyaml then some "py_yaml"
    else if tool == "py_xlsx" && env.hasOpenpyxl then some "py_xlsx"
    else if tool == "py_toml" && env.hasToml then some "py_toml"
    else if tool == "py_epub" && env.hasEbooklib then some "py_epub"
    else _resolve_tool env rest

/-- The per-identifier availability rule of `_resolve_tool`, factored out:
a candidate resolves exactly when this guard holds. -/
def toolAvailable (env : ToolEnv) (tool : String) : Bool :=
  if tool == "python" then true
  else if tool == "sips" then true
  else if tool == "afconvert" then true
  else if tool == "textutil" then true
  else if tool == "ffmpeg" then env.avail "ffmpeg"
  else if tool == "magick" then env.avail "magick" || env.avail "convert"
  else if tool == "pandoc" then env.avail "pandoc"
  else if tool == "pillow" then env.hasPillow
  else if tool == "pydub" then env.hasPydub
  else if tool == "py_docx" then env.hasPythonDocx
  else if tool == "py_markdown" then env.hasMarkdown
  else if tool == "py_pdf" then env.hasFpdf
  else if tool == "py_yaml" then env.hasPyyaml
  else if tool == "py_xlsx" then env.hasOpenpyxl
  else if tool == "py_toml" then env.hasToml
  else if tool == "py_epub" then env.hasEbooklib
  else false

/-! ### File category table (`EXTENSION_CATEGORIES`, `_categorize_file`) -/

/-- `EXTENSION_CATEGORIES` from the source, in declaration order (Python
dicts iterate in insertion order). -/
def EXTENSION_CATEGORIES : List (String × List String) :=
  [("Images", [".png", ".jpg", ".jpeg", ".gif", ".bmp", ".tiff", ".webp", ".svg", ".ico", ".heic", ".heif"]),
   ("Documents", [".pdf", ".doc", ".docx", ".txt", ".rtf", ".odt", ".pages", ".tex", ".md", ".rst", ".epub"]),
   ("Spreadsheets", [".csv", ".xlsx", ".xls", ".tsv", ".ods", ".numbers"]),
   ("Audio", [".mp3", ".wav", ".flac", ".ogg", ".aac", ".m4a", ".wma", ".opus"]),
   ("Video", [".mp4", ".avi", ".mkv", ".mov", ".webm", ".flv", ".wmv", ".m4v"]),
   ("Archives", [".zip", ".tar", ".gz", ".bz2", ".rar", ".7z", ".xz", ".dmg", ".iso"]),
   ("Code", [".py", ".js", ".ts", ".html", ".css", ".java", ".c", ".cpp", ".h", ".swift", ".go", ".rs", ".rb", ".sh"]),
   ("Data", [".json", ".xml", ".yaml", ".yml", ".toml", ".sql", ".db", ".sqlite"]),
   ("Presentations", [".ppt", ".pptx", ".key", ".odp"]),
   ("Design", [".psd", ".ai", ".sketch", ".fig", ".xd"])]

/-- The final path component (`pathlib.Path(...).name`). -/
def pathName (p : List Char) : List Char :=
  (p.reverse.takeWhile (fun c => c != '/')).reverse

/-- `pathlib.Path(...).suffix`: the part of the name from the last dot on,
empty when there is no dot, the dot is the first character (dotfiles), or
the dot is the last character. -/
def pySuffix (p : List Char) : List Char :=
  let n := pathName p
  let afterDot := (n.reverse.takeWhile (fun c => c != '.')).reverse
  if n.contains '.' && decide (0 < n.length - afterDot.length - 1) && decide (0 < afterDot.length)
  then n.drop (n.length - (afterDot.length + 1)) else []

/-- The lower-cased extension `_categorize_file` dispatches on. -/
def fileExt (filename : String) : String :=
  String.mk (pyLower (pySuffix filename.data))

/-- First category in table order whose extension set contains `ext`,
with the `"Other"` fallback. -/
def categorizeWith (table : List (String × List String)) (ext : String) : String :=
  match table.find? (fun p => p.2.contains ext) with
  | some p => p.1
  | none => "Other"

/-- `_categorize_file` from the source. -/
def _categorize_file (filename : String) : String :=
  categorizeWith EXTENSION_CATEGORIES (fileExt filename)

/-! ### Safety filter and command executor
(`DANGEROUS_PATTERNS`, `DANGEROUS_REGEXES`, `execute_shell_command`) -/

/-- `DANGEROUS_PATTERNS` from the source, verbatim (note the upper-case `R`
in the `chmod` entry). -/
def DANGEROUS_PATTERNS : List String :=
  ["rm -rf /", "rm -rf ~", "mkfs", "dd if=", ":()\x7b",
   "chmod -R 777 /", "> /dev/sda", "shutdown", "reboot"]

/-- Python `\s` character class (used by the deny-regexes). -/
def isReWS (c : Char) : Bool :=
  c == ' ' || c == '\t' || c == '\n' || c == '\r' || c == '\x0b' || c == '\x0c'

/-- After the `|` of the pipe regex: `\s*(sh|bash)` followed by anything. -/
def pipeTail : List Char → Bool
  | [] => false
  | c :: rest =>
    (S "sh").isPrefixOf (c :: rest) || (S "bash").isPrefixOf (c :: rest) ||
      (isReWS c && pipeTail rest)

/-- `.*\|` of the pipe regex: a stretch without newline (`.` does not match
newline), then the literal `|`, then `pipeTail`. -/
def dotStarPipe : List Char → Bool
  | [] => false
  | c :: rest => (c == '|' && pipeTail rest) || (c != '\n' && dotStarPipe rest)

/-- `\s*` then `.*\|\s*(sh|bash)` (the whitespace after the keyword may be
absorbed by either `\s+` or `.*`). -/
def wsThenDotStar : List Char → Bool
  | [] => false
  | c :: rest => dotStarPipe (c :: rest) || (isReWS c && wsThenDotStar rest)

/-- `\s+.*\|\s*(sh|bash)` (at least one whitespace after the keyword). -/
def afterKeyword : List Char → Bool
  | [] => false
  | c :: rest => isReWS c && wsThenDotStar rest

/-- `re.search` of `kw\s+.*\|\s*(sh|bash)`: try a match at every start
position.  The regexes carry `re.IGNORECASE` but are applied to the
already lower-cased command, so matching lower-case text is exact. -/
def searchPipeToShell (kw : List Char) : List Char → Bool
  | [] => false
  | c :: rest =>
    (kw.isPrefixOf (c :: rest) && afterKeyword ((c :: rest).drop kw.length)) ||
      searchPipeToShell kw rest

/-- `DANGEROUS_REGEXES` applied to a command string: the curl and wget
download-and-pipe-to-shell patterns. -/
def matchesDangerousRegex (l : List Char) : Bool :=
  searchPipeToShell (S "curl") l || searchPipeToShell (S "wget") l

/-- The safety filter's decision on a raw command: lower-case, trim, then
literal substring patterns or deny-regexes. -/
def isDangerous (command : String) : Bool :=
  let cmdLower := pyStrip (pyLower command.data)
  DANGEROUS_PATTERNS.any (fun p => isSubstr (S p) cmdLower) ||
    matchesDangerousRegex cmdLower

/-- Outcome of actually spawning a process (an environment oracle for
`subprocess.run`): normal exit with captured output, or wall-clock timeout. -/
inductive SpawnOutcome where
  | exited (success : Bool) (out err : String)
  | timedOut
deriving DecidableEq

/-- Result of `execute_shell_command`: the boolean the function returns and
how many processes were spawned. -/
structure ExecTrace where
  ok : Bool
  spawned : Nat
deriving DecidableEq

/-- `execute_shell_command` from the source: a blocked command never
spawns; otherwise exactly one process runs (success ⇔ exit code zero;
timeout and non-zero exit both return failure). -/
def execute_shell_command (spawn : String → SpawnOutcome) (command : String) : ExecTrace :=
  if isDangerous command then ⟨false, 0⟩
  else
    match spawn command with
    | .exited success _ _ => ⟨success, 1⟩
    | .timedOut => ⟨false, 1⟩

/-! ### Conversion dispatcher (`convert` command, planning portion) -/

/-- `CONVERSION_MAP` from the source (exact-key candidate lists). -/
def CONVERSION_MAP : List (String × List String) :=
  [(".json->.csv", ["python"]), (".csv->.json", ["python"]),
   (".json->.yaml", ["py_yaml", "python"]), (".json->.yml", ["py_yaml", "python"]),
   (".yaml->.json", ["py_yaml", "python"]), (".yml->.json", ["py_yaml", "python"]),
   (".json->.xlsx", ["py_xlsx", "python"]), (".csv->.xlsx", ["py_xlsx", "python"]),
   (".xlsx->.csv", ["py_xlsx", "python"]), (".xlsx->.json", ["py_xlsx", "python"]),
   (".json->.toml", ["py_toml", "python"]), (".toml->.json", ["py_toml", "python"]),
   (".png->.jpg", ["sips", "magick", "pillow"]), (".jpg->.png", ["sips", "magick", "pillow"]),
   (".png->.webp", ["magick", "pillow"]), (".webp->.png", ["magick", "sips", "pillow"]),
   (".png->.bmp", ["sips", "magick", "pillow"]), (".bmp->.png", ["sips", "magick", "pillow"]),
   (".png->.gif", ["sips", "magick", "pillow"]), (".gif->.png", ["sips", "magick", "pillow"]),
   (".png->.tiff", ["sips", "magick", "pillow"]), (".tiff->.png", ["sips", "magick", "pillow"]),
   (".png->.ico", ["magick", "pillow"]), (".jpg->.ico", ["magick", "pillow"]),
   (".jpg->.webp", ["magick", "pillow"]), (".webp->.jpg", ["magick", "sips", "pillow"]),
   (".jpg->.bmp", ["sips", "magick", "pillow"]), (".bmp->.jpg", ["sips", "magick", "pillow"]),
   (".jpg->.gif", ["sips", "magick", "pillow"]), (".gif->.jpg", ["sips", "magick", "pillow"]),
   (".jpg->.tiff", ["sips", "magick", "pillow"]), (".tiff->.jpg", ["sips", "magick", "pillow"]),
   (".heic->.jpg", ["sips", "magick", "pillow"]), (".heic->.png", ["sips", "magick", "pillow"]),
   (".heif->.jpg", ["sips", "magick", "pillow"]), (".heif->.png", ["sips", "magick", "pillow"]),
   (".png->.pdf", ["sips", "magick", "pillow"]), (".jpg->.pdf", ["sips", "magick", "pillow"]),
   (".webp->.gif", ["magick", "pillow"]), (".gif->.webp", ["magick", "pillow"]),
   (".wav->.aac", ["afconvert", "ffmpeg", "pydub"]), (".wav->.m4a", ["afconvert", "ffmpeg", "pydub"]),
   (".mp3->.wav", ["ffmpeg", "afconvert", "pydub"]), (".wav->.mp3", ["ffmpeg", "pydub"]),
   (".mp3->.flac", ["ffmpeg", "pydub"]), (".flac->.mp3", ["ffmpeg", "pydub"]),
   (".mp3->.ogg", ["ffmpeg", "pydub"]), (".ogg->.mp3", ["ffmpeg", "pydub"]),
   (".wav->.flac", ["ffmpeg", "pydub"]), (".flac->.wav", ["ffmpeg", "pydub"]),
   (".wav->.ogg", ["ffmpeg", "pydub"]), (".ogg->.wav", ["ffmpeg", "pydub"]),
   (".m4a->.mp3", ["ffmpeg", "pydub"]), (".m4a->.wav", ["ffmpeg", "pydub"]),
   (".aac->.mp3", ["ffmpeg", "pydub"]), (".aac->.wav", ["ffmpeg", "pydub"]),
   (".mp4->.mp3", ["ffmpeg"]), (".mp4->.wav", ["ffmpeg"]),
   (".mp4->.avi", ["ffmpeg"]), (".mp4->.mkv", ["ffmpeg"]),
   (".mp4->.webm", ["ffmpeg"]), (".mp4->.mov", ["ffmpeg"]),
   (".avi->.mp4", ["ffmpeg"]), (".mkv->.mp4", ["ffmpeg"]),
   (".mov->.mp4", ["ffmpeg"]), (".webm->.mp4", ["ffmpeg"]),
   (".mp4->.gif", ["ffmpeg"]),
   (".txt->.html", ["textutil", "pandoc", "py_markdown"]),
   (".txt->.docx", ["pandoc", "py_docx"]),
   (".txt->.pdf", ["pandoc", "py_pdf"]),
   (".docx->.pdf", ["pandoc", "py_pdf"]),
   (".docx->.txt", ["pandoc", "py_docx"]),
   (".md->.html", ["pandoc", "py_markdown"]),
   (".md->.pdf", ["pandoc", "py_pdf"]),
   (".md->.docx", ["pandoc", "py_docx"]),
   (".html->.pdf", ["pandoc", "py_pdf"]),
   (".html->.txt", ["textutil", "pandoc"]),
   (".html->.docx", ["pandoc", "py_docx"]),
   (".html->.epub", ["pandoc", "py_epub"]),
   (".md->.epub", ["pandoc", "py_epub"])]

/-- The keys of `TOOLS_URLS` (tools with a known download source). -/
def TOOLS_URLS_KEYS : List String := ["ffmpeg", "pandoc"]

/-- `os.path.splitext(...)[1]`: the extension including the dot; empty when
the basename has no dot or consists only of leading dots before it. -/
def splitextExt (p : List Char) : List Char :=
  let n := pathName p
  let afterDot := (n.reverse.takeWhile (fun c => c != '.')).reverse
  if n.contains '.' then
    let i := n.length - afterDot.length - 1
    if (n.take i).any (fun c => c != '.') then n.drop i else []
  else []

/-- The lower-cased source extension `convert` computes. -/
def convertExt (input_file : String) : String :=
  pyLowerS (String.mk (splitextExt input_file.data))

/-- Target normalization in `convert`: lower-case, strip, strip the first
matching natural-language wrapper, strip, drop leading dots, strip. -/
def normalizeTarget (target_format : String) : String :=
  let t0 := pyStrip (pyLower target_format.data)
  let wrappers := [S "convert to ", S "convert to", S "to ", S "as ", S "into "]
  let t1 := match wrappers.find? (fun w => w.isPrefixOf t0) with
            | some w => t0.drop w.length
            | none => t0
  String.mk (pyStrip ((pyStrip t1).dropWhile (fun c => c == '.')))

/-- `output_path = splitext(input)[0] + "." + target`. -/
def convertOutputPath (input_file : String) (target : String) : String :=
  String.mk (input_file.data.take (input_file.data.length - (splitextExt input_file.data).length)
    ++ '.' :: target.data)

/-- The extension set of a named category (`EXTENSION_CATEGORIES.get(name, set())`). -/
def categoryExts (name : String) : List String :=
  (EXTENSION_CATEGORIES.lookup name).getD []

/-- The category heuristic of `convert`: the candidate list guessed when no
exact conversion key exists; `none` means `NoKnownConverter`. -/
def heuristicToolList (ext target : String) : Option (List String) :=
  let all_media := categoryExts "Audio" ++ categoryExts "Video"
  let all_audio := categoryExts "Audio"
  let all_images := categoryExts "Images"
  let all_docs := categoryExts "Documents"
  let all_data := categoryExts "Data" ++ categoryExts "Spreadsheets"
  let dotT := "." ++ target
  if all_data.contains ext || all_data.contains dotT then
    some ["python", "py_yaml", "py_xlsx", "py_toml"]
  else if all_media.contains ext || all_media.contains dotT then
    if (all_audio.contains ext || all_audio.contains dotT) &&
        !(categoryExts "Video").contains ext then
      some ["ffmpeg", "afconvert", "pydub"]
    else
      some ["ffmpeg", "afconvert"]
  else if all_images.contains ext || all_images.contains dotT then
    some ["sips", "magick", "pillow"]
  else if all_docs.contains ext || all_docs.contains dotT then
    some ["textutil", "pandoc", "py_markdown", "py_pdf", "py_docx", "py_epub"]
  else none

/-- Exact key first, category heuristic second. -/
def candidateList (ext target : String) : Option (List String) :=
  match CONVERSION_MAP.lookup (ext ++ "->." ++ target) with
  | some l => some l
  | none => heuristicToolList ext target

/-- Error taxonomy of the `convert` planning stage (each variant is a
handled `typer.Exit(1)` in the source). -/
inductive ConvErr where
  | FileNotFound
  | NoKnownConverter
  | NoCapableTool
  | ToolUnavailable (needsInstall : Option String)
deriving DecidableEq

/-- The capability filter plus the narrow PDF rescue of `convert`. -/
def capableStage (tool_list : List String) (target : String) : Except ConvErr (List String) :=
  let capable := tool_list.filter (fun t => _tool_supports_target t target)
  if capable.isEmpty then
    if (categoryExts "Documents").contains ("." ++ target) && target == "pdf" then
      Except.ok ["pandoc", "py_pdf"]
    else
      Except.error ConvErr.NoCapableTool
  else
    Except.ok capable

/-- Tool resolution in `convert`; on failure the first candidate with a
known download source is reported for the install offer. -/
def resolveStage (env : ToolEnv) (capable : List String) : Except ConvErr String :=
  match _resolve_tool env capable with
  | some tool => Except.ok tool
  | none =>
    Except.error (ConvErr.ToolUnavailable
      ((capable.filter (fun t => TOOLS_URLS_KEYS.contains t)).head?))

/-- The planning result of `convert`: the selected tool, the normalized
target and the output path handed to the tool adapter. -/
structure ConvPlan where
  tool : String
  target : String
  outputPath : String
deriving DecidableEq

/-- The planning portion of the `convert` command (existence check through
tool selection), embedded from the source. -/
def convertPlan (env : ToolEnv) (fileExists : Bool) (input_file : String)
    (target_format : String) : Except ConvErr ConvPlan :=
  if !fileExists then Except.error ConvErr.FileNotFound
  else
    let ext := convertExt input_file
    let target := normalizeTarget target_format
    match candidateList ext target with
    | none => Except.error ConvErr.NoKnownConverter
    | some tool_list =>
      match capableStage tool_list target with
      | Except.error e => Except.error e
      | Except.ok capable =>
        (resolveStage env capable).map
          (fun tool => ⟨tool, target, convertOutputPath input_file target⟩)

/-! ### `execute` — resize action -/

/-- `pathlib.Path(...).stem`: the final component minus its suffix. -/
def pyStem (p : List Char) : List Char :=
  let n := pathName p
  n.take (n.length - (pySuffix p).length)

/-- A `resize` plan as `execute` reads it: `input_file` plus the optional
`scale` / `quality` fields (Python floats abstracted as rationals; only
their defaulting is claimed). -/
structure ResizePlan where
  input_file : String
  scale : Option ℚ
  quality : Option Int
deriving DecidableEq

/-- The image written by the resize action, abstracting the Pillow
resize/save collaborator by its parameters. -/
inductive ImgWrite where
  | resizedImage (scale : ℚ) (quality : Int)
deriving DecidableEq

inductive ResizeResult where
  | errMissingInput
  | errFileNotFound
  | errNoPillow
  | done
deriving DecidableEq

structure ResizeEffects where
  result : ResizeResult
  written : List (String × ImgWrite)
deriving DecidableEq

/-- The output path of the resize action:
`src.parent / (src.stem + "_small" + (src.suffix.lower() or ".jpg"))`.
(Trailing-slash inputs are not modelled; they cannot name an existing
image file.) -/
def resizeOutPath (input_file : String) : String :=
  let p := input_file.data
  let name := pathName p
  let dir := p.take (p.length - name.length)
  let sfxLower := pyLower (pySuffix p)
  let sfx := if sfxLower.isEmpty then S ".jpg" else sfxLower
  String.mk (dir ++ pyStem p ++ S "_small" ++ sfx)

/-- The `resize` branch of `execute`: validation, then one write of the
scaled/recompressed image to the sibling `_small` file; the input file is
only read.  `scale` defaults to `0.5` and `quality` to `75` when the plan
omits them. -/
def executeResize (hasPillow : Bool) (fileExists : String → Bool)
    (plan : ResizePlan) : ResizeEffects :=
  if plan.input_file == "" then ⟨ResizeResult.errMissingInput, []⟩
  else if !fileExists plan.input_file then ⟨ResizeResult.errFileNotFound, []⟩
  else if !hasPillow then ⟨ResizeResult.errNoPillow, []⟩
  else
    ⟨ResizeResult.done,
     [(resizeOutPath plan.input_file,
       ImgWrite.resizedImage (plan.scale.getD ((1 : ℚ)/2)) (plan.quality.getD 75))]⟩

/-! ### Structured data values (`json.load` results and worksheet cells) -/

/-- A JSON-like structured value.  Numbers are abstracted by their source
lexeme (no claim exercises float formatting). -/
inductive JData where
  | jstr (s : List Char)
  | jnum (lex : List Char)
  | jbool (b : Bool)
  | jnull
  | jarr (items : List JData)
  | jobj (fields : List (List Char × JData))

instance : Inhabited JData := ⟨JData.jnull⟩

/-- Python `str()` as `csv.writer` applies it to non-string cells (container
reprs abstracted; no claim exercises them). -/
def pyStr : JData → List Char
  | JData.jstr s => s
  | JData.jnum lex => lex
  | JData.jbool true => S "True"
  | JData.jbool false => S "False"
  | JData.jnull => S "None"
  | JData.jarr _ => S "<list>"
  | JData.jobj _ => S "<dict>"

/-- A cell as `csv.writer` serializes it: `None` becomes the empty field,
anything else its `str()`. -/
def csvCell : JData → List Char
  | JData.jnull => []
  | v => pyStr v

/-! ### The `csv` module, default dialect
(delimiter `,`, quotechar `"`, doublequote, QUOTE_MINIMAL, CRLF) -/

/-- QUOTE_MINIMAL: a field is quoted when it contains the delimiter, the
quote character, or a line-terminator character. -/
def needsQuote (f : List Char) : Bool :=
  f.any (fun c => c == ',' || c == '"' || c == '\r' || c == '\n')

/-- Double every quote character (the `doublequote` escape). -/
def escQuote : List Char → List Char
  | [] => []
  | c :: rest => if c == '"' then '"' :: '"' :: escQuote rest else c :: escQuote rest

def encodeField (f : List Char) : List Char :=
  if needsQuote f then '"' :: (escQuote f ++ ['"']) else f

def encodeRowBody : List (List Char) → List Char
  | [] => []
  | [f] => encodeField f
  | f :: rest => encodeField f ++ ',' :: encodeRowBody rest

/-- One row as `csv.writer` emits it: comma-joined minimally-quoted fields
plus CRLF; a row of exactly one empty field is written `""` (the writer
quotes it so it stays distinguishable from a blank line). -/
def encodeRow (r : List (List Char)) : List Char :=
  (if r == [([] : List Char)] then S "\"\"" else encodeRowBody r) ++ S "\r\n"

def encodeCsv : List (List (List Char)) → List Char
  | [] => []
  | r :: rest => encodeRow r ++ encodeCsv rest

/-- The same row with a bare-LF terminator (what universal-newline
translation turns writer output into). -/
def encodeRowLF (r : List (List Char)) : List Char :=
  (if r == [([] : List Char)] then S "\"\"" else encodeRowBody r) ++ ['\n']

def encodeCsvLF : List (List (List Char)) → List Char
  | [] => []
  | r :: rest => encodeRowLF r ++ encodeCsvLF rest

/-- Universal-newline translation of text-mode reading (`open` without
`newline=''`, as `_convert_data` reads CSV input): `\r\n` and bare `\r`
both become `\n`. -/
def univNL : List Char → List Char
  | [] => []
  | c :: rest =>
    if c == '\r' then
      match rest with
      | '\n' :: rest2 => '\n' :: univNL rest2
      | [] => ['\n']
      | c2 :: rest2 => '\n' :: univNL (c2 :: rest2)
    else c :: univNL rest

/-- Parser state of the `csv.reader` field/record machine. -/
inductive CsvMode where
  | startField | inField | inQuoted | quoteInQuoted | eatNL
deriving DecidableEq

/-- Reader state: current mode, reversed field accumulator, completed
fields of the current row (reversed order), completed rows (reversed). -/
structure CsvSt where
  mode : CsvMode
  field : List Char
  row : List (List Char)
  rows : List (List (List Char))
deriving DecidableEq

/-- One reader step for the four live modes (`eatNL` is handled by
`csvStep`). -/
def csvStepCore (st : CsvSt) (c : Char) : CsvSt :=
  match st.mode with
  | CsvMode.startField =>
    if c == '"' then { st with mode := CsvMode.inQuoted }
    else if c == ',' then { st with row := st.field.reverse :: st.row, field := [] }
    else if c == '\r' then
      { mode := CsvMode.eatNL, field := [], row := [],
        rows := (if st.row.isEmpty && st.field.isEmpty then []
                 else (st.field.reverse :: st.row).reverse) :: st.rows }
    else if c == '\n' then
      { mode := CsvMode.startField, field := [], row := [],
        rows := (if st.row.isEmpty && st.field.isEmpty then []
                 else (st.field.reverse :: st.row).reverse) :: st.rows }
    else { st with mode := CsvMode.inField, field := c :: st.field }
  | CsvMode.inField =>
    if c == ',' then
      { st with mode := CsvMode.startField, row := st.field.reverse :: st.row, field := [] }
    else if c == '\r' then
      { mode := CsvMode.eatNL, field := [], row := [],
        rows := (st.field.reverse :: st.row).reverse :: st.rows }
    else if c == '\n' then
      { mode := CsvMode.startField, field := [], row := [],
        rows := (st.field.reverse :: st.row).reverse :: st.rows }
    else { st with field := c :: st.field }
  | CsvMode.inQuoted =>
    if c == '"' then { st with mode := CsvMode.quoteInQuoted }
    else { st with field := c :: st.field }
  | CsvMode.quoteInQuoted =>
    if c == '"' then { st with mode := CsvMode.inQuoted, field := '"' :: st.field }
    else if c == ',' then
      { st with mode := CsvMode.startField, row := st.field.reverse :: st.row, field := [] }
    else if c == '\r' then
      { mode := CsvMode.eatNL, field := [], row := [],
        rows := (st.field.reverse :: st.row).reverse :: st.rows }
    else if c == '\n' then
      { mode := CsvMode.startField, field := [], row := [],
        rows := (st.field.reverse :: st.row).reverse :: st.rows }
    else { st with mode := CsvMode.inField, field := c :: st.field }
  | CsvMode.eatNL => st

/-- One reader step.  In `eatNL` (just after a bare `\r` ended a record) a
`\n` is consumed silently; any other character starts the next record
(unreachable for streams read through universal newlines, where no bare
`\r` survives). -/
def csvStep (st : CsvSt) (c : Char) : CsvSt :=
  match st.mode with
  | CsvMode.eatNL =>
    if c == '\n' then { st with mode := CsvMode.startField }
    else csvStepCore { st with mode := CsvMode.startField } c
  | _ => csvStepCore st c

/-- End of input: flush the pending record (an unterminated final line
still yields its row). -/
def csvFinish (st : CsvSt) : List (List (List Char)) :=
  match st.mode with
  | CsvMode.eatNL => st.rows.reverse
  | CsvMode.startField =>
    if st.row.isEmpty && st.field.isEmpty then st.rows.reverse
    else ((st.field.reverse :: st.row).reverse :: st.rows).reverse
  | _ => ((st.field.reverse :: st.row).reverse :: st.rows).reverse

def initCsvSt : CsvSt := ⟨CsvMode.startField, [], [], []⟩

/-- `csv.reader` on a whole character stream. -/
def csvParse (l : List Char) : List (List (List Char)) :=
  csvFinish (l.foldl csvStep initCsvSt)

/-! ### `_convert_data`: the in-process data converter -/

/-- A JSON record: the association list of one object. -/
abbrev JRec := List (List Char × JData)

/-- `csv.DictWriter` with `extrasaction='raise'`, `restval=''`: rows
written before the first failing record, plus an all-ok flag (a record
with keys outside the header raises `ValueError`; a non-dict record raises
`AttributeError`). -/
def dictWriterRows (headers : List (List Char)) : List JData →
    List (List (List Char)) × Bool
  | [] => ([], true)
  | JData.jobj fields :: rest =>
    if fields.any (fun kv => !headers.contains kv.1) then ([], false)
    else
      let row := headers.map (fun h => csvCell ((fields.lookup h).getD (JData.jstr [])))
      let pr := dictWriterRows headers rest
      (row :: pr.1, pr.2)
  | _ :: _ => ([], false)

/-- One `csv.DictReader` record: `dict(zip(fieldnames, row))`, missing
fields filled with `restval=None`, surplus cells gathered under the
`restkey=None` key (which `json.dump` later renders as the string
`"null"`). -/
def dictRowOf (fns : List (List Char)) (row : List (List Char)) : JData :=
  JData.jobj
    ((fns.zip row).map (fun kv => (kv.1, JData.jstr kv.2)) ++
     (fns.drop row.length).map (fun k => (k, JData.jnull)) ++
     (if fns.length < row.length then
        [(S "null", JData.jarr ((row.drop fns.length).map JData.jstr))]
      else []))

/-- `list(csv.DictReader(f))` then `json.dump`: fieldnames from the first
parsed row (even when empty), blank rows skipped, each remaining row a
record. -/
def csvToJsonData (t : List Char) : JData :=
  match csvParse (univNL t) with
  | [] => JData.jarr []
  | fns :: rest =>
    JData.jarr ((rest.filter (fun r => !r.isEmpty)).map (dictRowOf fns))

/-- The shape check shared by the json→csv and json→xlsx branches: a dict
is wrapped into a one-element list; a non-list or an empty list is
rejected. -/
def jsonToCsvData : JData → Option (List JData)
  | JData.jobj fs => some [JData.jobj fs]
  | JData.jarr items => if items.isEmpty then none else some items
  | _ => none

/-- What `_convert_data` reads: the structured value a loader yields
(`json.load`/`yaml.safe_load`/`toml.load`), a raw text stream (CSV), or
worksheet rows (openpyxl, `None` cells as `jnull`). -/
inductive InContent where
  | parsed (d : JData)
  | rawText (t : List Char)
  | tableRows (rows : List (List JData))

/-- What `_convert_data` writes; the YAML/TOML/XLSX writers are external
collaborators modelled by constructors. -/
inductive OutContent where
  | csvText (t : List Char)
  | jsonText (d : JData)
  | yamlDump (d : JData)
  | xlsxBook (rows : List (List JData))
  | tomlDump (d : JData)

instance : Inhabited OutContent := ⟨OutContent.csvText []⟩

instance : Inhabited InContent := ⟨InContent.rawText []⟩

/-- `True` return, `False` return, or an uncaught exception. -/
inductive ConvRes where
  | success | failed | raised
deriving DecidableEq

structure ConvEffects where
  res : ConvRes
  written : List (String × OutContent)

/-- The `.json -> csv` branch. -/
def jsonToCsvBranch (d : JData) (output_path : String) : ConvEffects :=
  match jsonToCsvData d with
  | none => ⟨ConvRes.failed, []⟩
  | some items =>
    match items with
    | [] => ⟨ConvRes.failed, []⟩
    | first :: _ =>
      match first with
      | JData.jobj fs =>
        let headers := fs.map Prod.fst
        let pr := dictWriterRows headers items
        if pr.2 then
          ⟨ConvRes.success,
           [(output_path, OutContent.csvText (encodeCsv (headers :: pr.1)))]⟩
        else
          -- the writer raised mid-loop: the file keeps the rows written so far
          ⟨ConvRes.raised,
           [(output_path, OutContent.csvText (encodeCsv (headers :: pr.1)))]⟩
      | _ =>
        -- list of primitives: single `value` column
        ⟨ConvRes.success,
         [(output_path, OutContent.csvText
            (encodeCsv ([S "value"] :: items.map (fun it => [csvCell it]))))]⟩

/-- The `.json -> xlsx` branch (`wb.save` happens only at the end, so a
raise leaves no file). -/
def jsonToXlsxBranch (d : JData) (output_path : String) : ConvEffects :=
  match jsonToCsvData d with
  | none => ⟨ConvRes.failed, []⟩
  | some items =>
    match items with
    | [] => ⟨ConvRes.failed, []⟩
    | first :: _ =>
      match first with
      | JData.jobj fs =>
        let headers := fs.map Prod.fst
        if items.all (fun it => match it with | JData.jobj _ => true | _ => false) then
          ⟨ConvRes.success,
           [(output_path, OutContent.xlsxBook
              ((headers.map JData.jstr) :: items.map (fun it =>
                match it with
                | JData.jobj fs2 => headers.map (fun h => (fs2.lookup h).getD (JData.jstr []))
                | _ => [])))]⟩
        else ⟨ConvRes.raised, []⟩
      | _ =>
        ⟨ConvRes.success,
         [(output_path, OutContent.xlsxBook
            ([JData.jstr (S "value")] :: items.map (fun it => [it])))]⟩

/-- Python truthiness of a header cell (numeric truthiness abstracted by
the lexeme; no claim exercises numeric header cells). -/
def jTruthy : JData → Bool
  | JData.jnull => false
  | JData.jstr s => !s.isEmpty
  | JData.jbool b => b
  | JData.jnum lex => !(lex == S "0" || lex == S "0.0")
  | _ => true

/-- The `.xlsx -> json` branch: headers from the first row (`str(h)` or
`col_{i}` for falsy cells), `None` cells become empty strings; a data row
longer than the header row raises `IndexError`. -/
def xlsxToJsonBranch (rows : List (List JData)) (output_path : String) : ConvEffects :=
  match rows with
  | [] => ⟨ConvRes.success, [(output_path, OutContent.jsonText (JData.jarr []))]⟩
  | hrow :: rest =>
    let headers := hrow.enum.map (fun p =>
      if jTruthy p.2 then pyStr p.2 else S "col_" ++ (toString p.1).data)
    if rest.any (fun r => headers.length < r.length) then ⟨ConvRes.raised, []⟩
    else
      ⟨ConvRes.success,
       [(output_path, OutContent.jsonText (JData.jarr (rest.map (fun r =>
          JData.jobj (r.enum.map (fun p =>
            (headers.getD p.1 [],
             match p.2 with
             | JData.jnull => JData.jstr []
             | v => v)))))))]⟩

/-- `_convert_data` from the source: the deterministic stdlib/bundled-library
data conversions, tried in source order; the final fallthrough prints an
error and returns `False` with no file written. -/
def _convert_data (env : ToolEnv) (input : InContent) (ext target : String)
    (output_path : String) : ConvEffects :=
  if ext == ".json" && target == "csv" then
    match input with
    | InContent.parsed d => jsonToCsvBranch d output_path
    | _ => ⟨ConvRes.raised, []⟩
  else if ext == ".csv" && target == "json" then
    match input with
    | InContent.rawText t =>
      ⟨ConvRes.success, [(output_path, OutContent.jsonText (csvToJsonData t))]⟩
    | _ => ⟨ConvRes.raised, []⟩
  else if ext == ".json" && (target == "yaml" || target == "yml") && env.hasPyyaml then
    match input with
    | InContent.parsed d => ⟨ConvRes.success, [(output_path, OutContent.yamlDump d)]⟩
    | _ => ⟨ConvRes.raised, []⟩
  else if (ext == ".yaml" || ext == ".yml") && target == "json" && env.hasPyyaml then
    match input with
    | InContent.parsed d => ⟨ConvRes.success, [(output_path, OutContent.jsonText d)]⟩
    | _ => ⟨ConvRes.raised, []⟩
  else if ext == ".json" && target == "xlsx" && env.hasOpenpyxl then
    match input with
    | InContent.parsed d => jsonToXlsxBranch d output_path
    | _ => ⟨ConvRes.raised, []⟩
  else if ext == ".csv" && target == "xlsx" && env.hasOpenpyxl then
    match input with
    | InContent.rawText t =>
      ⟨ConvRes.success,
       [(output_path, OutContent.xlsxBook
          ((csvParse (univNL t)).map (fun r => r.map JData.jstr)))]⟩
    | _ => ⟨ConvRes.raised, []⟩
  else if ext == ".xlsx" && target == "csv" && env.hasOpenpyxl then
    match input with
    | InContent.tableRows rows =>
      ⟨ConvRes.success,
       [(output_path, OutContent.csvText
          (encodeCsv (rows.map (fun r => r.map csvCell))))]⟩
    | _ => ⟨ConvRes.raised, []⟩
  else if ext == ".xlsx" && target == "json" && env.hasOpenpyxl then
    match input with
    | InContent.tableRows rows => xlsxToJsonBranch rows output_path
    | _ => ⟨ConvRes.raised, []⟩
  else if ext == ".json" && target == "toml" && env.hasToml then
    match input with
    | InContent.parsed (JData.jobj fs) =>
      ⟨ConvRes.success, [(output_path, OutContent.tomlDump (JData.jobj fs))]⟩
    | InContent.parsed _ => ⟨ConvRes.failed, []⟩
    | _ => ⟨ConvRes.raised, []⟩
  else if ext == ".toml" && target == "json" && env.hasToml then
    match input with
    | InContent.parsed d => ⟨ConvRes.success, [(output_path, OutContent.jsonText d)]⟩
    | _ => ⟨ConvRes.raised, []⟩
  else ⟨ConvRes.failed, []⟩

/-- The (ext, target, library-availability) combinations `_convert_data`
implements — the guards of its branch chain. -/
def dataPairSupported (env : ToolEnv) (ext target : String) : Bool :=
  (ext == ".json" && target == "csv") ||
  (ext == ".csv" && target == "json") ||
  (ext == ".json" && (target == "yaml" || target == "yml") && env.hasPyyaml) ||
  ((ext == ".yaml" || ext == ".yml") && target == "json" && env.hasPyyaml) ||
  (ext == ".json" && target == "xlsx" && env.hasOpenpyxl) ||
  (ext == ".csv" && target == "xlsx" && env.hasOpenpyxl) ||
  (ext == ".xlsx" && target == "csv" && env.hasOpenpyxl) ||
  (ext == ".xlsx" && target == "json" && env.hasOpenpyxl) ||
  (ext == ".json" && target == "toml" && env.hasToml) ||
  (ext == ".toml" && target == "json" && env.hasToml)

/-- State after the reader has consumed one encoded field starting at a
field boundary. -/
def afterFieldSt (f : List Char) (row : List (List Char))
    (rows : List (List (List Char))) : CsvSt :=
  if needsQuote f then ⟨CsvMode.quoteInQuoted, f.reverse, row, rows⟩
  else if f.isEmpty then ⟨CsvMode.startField, [], row, rows⟩
  else ⟨CsvMode.inField, f.reverse, row, rows⟩

/-! ### JSON → CSV → JSON round trip -/

/-- The string `DictWriter` puts into the column `h` of record `r`. -/
def recVal (r : JRec) (h : List Char) : List Char :=
  csvCell ((r.lookup h).getD (JData.jstr []))

/-- The whole row `DictWriter` writes for record `r`. -/
def rowOfRec (headers : List (List Char)) (r : JRec) : List (List Char) :=
  headers.map (recVal r)

/-- A looked-up cell that is a string without carriage returns (the shape
the round-trip claim needs, decidably). -/
def strCellNoCR : Option JData → Bool
  | some (JData.jstr v) => !v.any (fun c => c == '\r')
  | _ => false

/-! ### `dispatch`: JSON emission contract
(`json.loads`/`json.dumps` modelled for the default single-line settings;
float formatting and surrogate-pair decoding abstracted — no claim
exercises them) -/

def hexDigit (n : Nat) : Char :=
  if n < 10 then Char.ofNat (48 + n) else Char.ofNat (87 + n)

/-- One character as `json.dumps` (with `ensure_ascii=False`) escapes it. -/
def escChar (c : Char) : List Char :=
  if c == '"' then ['\\', '"']
  else if c == '\\' then ['\\', '\\']
  else if c == '\n' then ['\\', 'n']
  else if c == '\r' then ['\\', 'r']
  else if c == '\t' then ['\\', 't']
  else if c == '\x08' then ['\\', 'b']
  else if c == '\x0c' then ['\\', 'f']
  else if c.toNat < 32 then
    ['\\', 'u', '0', '0', hexDigit (c.toNat / 16), hexDigit (c.toNat % 16)]
  else [c]

def escBody : List Char → List Char
  | [] => []
  | c :: rest => escChar c ++ escBody rest

def escString (s : List Char) : List Char :=
  '"' :: (escBody s ++ ['"'])

mutual
/-- `json.dumps` with the default separators `", "`/`": "`; numbers are
emitted as their stored lexeme (float repr abstracted). -/
def jsonDumps : JData → List Char
  | JData.jstr s => escString s
  | JData.jnum lex => lex
  | JData.jbool true => S "true"
  | JData.jbool false => S "false"
  | JData.jnull => S "null"
  | JData.jarr items => '[' :: (dumpsItems items ++ [']'])
  | JData.jobj fields => '\x7b' :: (dumpsFields fields ++ ['\x7d'])

def dumpsItems : List JData → List Char
  | [] => []
  | [x] => jsonDumps x
  | x :: y :: rest => jsonDumps x ++ ',' :: ' ' :: dumpsItems (y :: rest)

def dumpsFields : List (List Char × JData) → List Char
  | [] => []
  | [kv] => escString kv.1 ++ ':' :: ' ' :: jsonDumps kv.2
  | kv :: kv2 :: rest =>
    escString kv.1 ++ ':' :: ' ' :: jsonDumps kv.2 ++ ',' :: ' ' :: dumpsFields (kv2 :: rest)
end

/-- JSON whitespace as `json.loads` skips it. -/
def skipJWS : List Char → List Char
  | [] => []
  | c :: rest =>
    if c == ' ' || c == '\t' || c == '\n' || c == '\r' then skipJWS rest else c :: rest

def isDigit (c : Char) : Bool := '0' ≤ c && c ≤ '9'

/-- Characters a JSON number lexeme can be built from. -/
def numLexChar (c : Char) : Bool :=
  isDigit c || c == '-' || c == '+' || c == '.' || c == 'e' || c == 'E'

def validExp (l : List Char) : Bool :=
  match l with
  | [] => true
  | c :: r =>
    (c == 'e' || c == 'E') &&
      (let r2 := match r with
        | '+' :: r3 => r3
        | '-' :: r3 => r3
        | _ => r
       let ds := r2.takeWhile isDigit
       (!ds.isEmpty) && (r2.drop ds.length).isEmpty)

def validFracExp (l : List Char) : Bool :=
  match l with
  | '.' :: r =>
    let ds := r.takeWhile isDigit
    (!ds.isEmpty) && validExp (r.drop ds.length)
  | _ => validExp l

/-- The JSON number grammar: optional minus, `0` or nonzero-led digits,
optional fraction, optional exponent. -/
def validNumber (l : List Char) : Bool :=
  let l1 := match l with
    | '-' :: r => r
    | _ => l
  let ds := l1.takeWhile isDigit
  decide (0 < ds.length) &&
    (ds.length == 1 || ds.headD '0' != '0') &&
    validFracExp (l1.drop ds.length)

def hexVal (c : Char) : Option Nat :=
  if isDigit c then some (c.toNat - 48)
  else if 'a' ≤ c && c ≤ 'f' then some (c.toNat - 87)
  else if 'A' ≤ c && c ≤ 'F' then some (c.toNat - 55)
  else none

def parseHex4 : List Char → Option (Nat × List Char)
  | a :: b :: c :: d :: rest =>
    match hexVal a, hexVal b, hexVal c, hexVal d with
    | some x, some y, some z, some w => some (((x * 16 + y) * 16 + z) * 16 + w, rest)
    | _, _, _, _ => none
  | _ => none

/-- A JSON string body after the opening quote (strict mode: raw control
characters rejected); `\uXXXX` code points outside Lean's scalar range
(lone surrogates) are abstracted to the NUL default of `Char.ofNat`. -/
def parseJStrBody : Nat → List Char → List Char → Option (List Char × List Char)
  | 0, _, _ => none
  | _ + 1, [], _ => none
  | fuel + 1, c :: r, acc =>
    if c == '"' then some (acc.reverse, r)
    else if c == '\\' then
      match r with
      | [] => none
      | e :: r2 =>
        if e == '"' then parseJStrBody fuel r2 ('"' :: acc)
        else if e == '\\' then parseJStrBody fuel r2 ('\\' :: acc)
        else if e == '/' then parseJStrBody fuel r2 ('/' :: acc)
        else if e == 'b' then parseJStrBody fuel r2 ('\x08' :: acc)
        else if e == 'f' then parseJStrBody fuel r2 ('\x0c' :: acc)
        else if e == 'n' then parseJStrBody fuel r2 ('\n' :: acc)
        else if e == 'r' then parseJStrBody fuel r2 ('\r' :: acc)
        else if e == 't' then parseJStrBody fuel r2 ('\t' :: acc)
        else if e == 'u' then
          match parseHex4 r2 with
          | some (n, r3) => parseJStrBody fuel r3 (Char.ofNat n :: acc)
          | none => none
        else none
    else if c.toNat < 32 then none
    else parseJStrBody fuel r (c :: acc)

/-- `dict` building: a repeated key keeps its first position and takes the
later value. -/
def objUpsert (acc : List (List Char × JData)) (k : List Char) (v : JData) :
    List (List Char × JData) :=
  if acc.any (fun kv => kv.1 == k) then
    acc.map (fun kv => if kv.1 == k then (kv.1, v) else kv)
  else acc ++ [(k, v)]

def buildDict (ps : List (List Char × JData)) : List (List Char × JData) :=
  ps.foldl (fun acc kv => objUpsert acc kv.1 kv.2) []

mutual
/-- One JSON value at the current position (leading whitespace skipped). -/
def parseVal : Nat → List Char → Option (JData × List Char)
  | 0, _ => none
  | fuel + 1, input =>
    match skipJWS input with
    | [] => none
    | c :: rest =>
      if c == '"' then
        match parseJStrBody (fuel + 1) rest [] with
        | some (s, r) => some (JData.jstr s, r)
        | none => none
      else if c == '\x7b' then
        match skipJWS rest with
        | '\x7d' :: r2 => some (JData.jobj [], r2)
        | _ =>
          match parseObjMembers fuel rest with
          | some (ms, r) => some (JData.jobj (buildDict ms), r)
          | none => none
      else if c == '[' then
        match skipJWS rest with
        | ']' :: r2 => some (JData.jarr [], r2)
        | _ =>
          match parseArrElems fuel rest with
          | some (vs, r) => some (JData.jarr vs, r)
          | none => none
      else if (S "true").isPrefixOf (c :: rest) then
        some (JData.jbool true, (c :: rest).drop 4)
      else if (S "false").isPrefixOf (c :: rest) then
        some (JData.jbool false, (c :: rest).drop 5)
      else if (S "null").isPrefixOf (c :: rest) then
        some (JData.jnull, (c :: rest).drop 4)
      else if (S "NaN").isPrefixOf (c :: rest) then
        some (JData.jnum (S "NaN"), (c :: rest).drop 3)
      else if (S "Infinity").isPrefixOf (c :: rest) then
        some (JData.jnum (S "Infinity"), (c :: rest).drop 8)
      else if (S "-Infinity").isPrefixOf (c :: rest) then
        some (JData.jnum (S "-Infinity"), (c :: rest).drop 9)
      else
        let lex := (c :: rest).takeWhile numLexChar
        if validNumber lex then some (JData.jnum lex, (c :: rest).drop lex.length)
        else none

/-- The elements of a non-empty array, consuming the closing bracket. -/
def parseArrElems : Nat → List Char → Option (List JData × List Char)
  | 0, _ => none
  | fuel + 1, l =>
    match parseVal fuel l with
    | none => none
    | some (v, r) =>
      match skipJWS r with
      | ',' :: r2 =>
        match parseArrElems fuel r2 with
        | some (vs, r3) => some (v :: vs, r3)
        | none => none
      | ']' :: r2 => some ([v], r2)
      | _ => none

/-- The members of a non-empty object, consuming the closing brace. -/
def parseObjMembers : Nat → List Char → Option (List (List Char × JData) × List Char)
  | 0, _ => none
  | fuel + 1, l =>
    match skipJWS l with
    | '"' :: r =>
      match parseJStrBody (fuel + 1) r [] with
      | none => none
      | some (k, r2) =>
        match skipJWS r2 with
        | ':' :: r3 =>
          match parseVal fuel r3 with
          | none => none
          | some (v, r4) =>
            match skipJWS r4 with
            | ',' :: r5 =>
              match parseObjMembers fuel r5 with
              | some (ms, r6) => some ((k, v) :: ms, r6)
              | none => none
            | '\x7d' :: r5 => some ([(k, v)], r5)
            | _ => none
        | _ => none
    | _ => none
end

/-- `json.loads`: one value, then nothing but whitespace. -/
def jsonLoads (l : List Char) : Option JData :=
  match parseVal (l.length + 1) l with
  | some (v, r) => if (skipJWS r).isEmpty then some v else none
  | none => none

/-- The part after the first newline (`s.split("\n", 1)[-1]`). -/
def afterFirstNL : List Char → List Char
  | [] => []
  | c :: r => if c == '\n' then r else afterFirstNL r

/-- Markdown code-fence stripping in `dispatch`: strip, drop a leading
fence line (or just the backticks when the reply is one line), drop a
trailing fence (`rsplit` at the final occurrence, which for a string
ending in the fence is its last three characters), strip again. -/
def stripFences (resp : List Char) : List Char :=
  let cleaned := pyStrip resp
  let cleaned2 :=
    if (S "```").isPrefixOf cleaned then
      (if cleaned.contains '\n' then afterFirstNL cleaned else cleaned.drop 3)
    else cleaned
  let cleaned3 :=
    if (S "```").isSuffixOf cleaned2 then cleaned2.take (cleaned2.length - 3)
    else cleaned2
  pyStrip cleaned3

def VALID_AGENTS : List String := ["convert", "organize", "summarize", "rename", "command"]

/-- The fallback plan built when the reply does not parse as JSON. -/
def fallbackPlan (cleaned : List Char) : JData :=
  JData.jobj [(S "action", JData.jstr (S "none")),
    (S "explanation", JData.jstr (S "Agent could not parse request: " ++ cleaned.take 200))]

/-- Exit code, the machine-readable stdout line from `print` (the Rich
console decoration for an unknown agent is not part of it), and how many
LLM calls were made. -/
structure DispatchOut where
  exitCode : Nat
  stdoutLine : List Char
  llmCalls : Nat
deriving DecidableEq

/-- `dispatch` from the source: validate the agent name (exit 1, no LLM
call otherwise); call the LLM once, strip fences, parse; print the
re-serialized parse or the serialized fallback plan. -/
def dispatch (agent : String) (llmReply : List Char) : DispatchOut :=
  if agent ∈ VALID_AGENTS then
    let cleaned := stripFences llmReply
    match jsonLoads cleaned with
    | some v => ⟨0, jsonDumps v, 1⟩
    | none => ⟨0, jsonDumps (fallbackPlan cleaned), 1⟩
  else ⟨1, [], 0⟩

/-- Does a JSON value carry an `action` field? -/
def hasActionField : JData → Bool
  | JData.jobj fs => fs.any (fun kv => kv.1 == S "action")
  | _ => false

theorem resolve_eq_find (env : ToolEnv) (l : List String) :
    _resolve_tool env l = l.find? (toolAvailable env) := by
  induction l with
  | nil => rfl
  | cons t rest ih =>
    by_cases h1 : t = "python"
    · simp [_resolve_tool, List.find?, toolAvailable, h1]
    by_cases h2 : t = "sips"
    · simp [_resolve_tool, List.find?, toolAvailable, h2]
    by_cases h3 : t = "afconvert"
    · simp [_resolve_tool, List.find?, toolAvailable, h3]
    by_cases h4 : t = "textutil"
    · simp [_resolve_tool, List.find?, toolAvailable, h4]
    by_cases h5 : t = "ffmpeg"
    · by_cases ha : env.avail "ffmpeg" <;>
        simp [_resolve_tool, List.find?, toolAvailable, check_command_availability,
          h5, ha, ih]
    by_cases h6 : t = "magick"
    · by_cases ha : env.avail "magick" <;> by_cases hb : env.avail "convert" <;>
        simp [_resolve_tool, List.find?, toolAvailable, check_command_availability,
          h6, ha, hb, ih]
    by_cases h7 : t = "pandoc"
    · by_cases ha : env.avail "pandoc" <;>
        simp [_resolve_tool, List.find?, toolAvailable, check_command_availability,
          h7, ha, ih]
    by_cases h8 : t = "pillow"
    · by_cases ha : env.hasPillow <;>
        simp [_resolve_tool, List.find?, toolAvailable, h8, ha, ih]
    by_cases h9 : t = "pydub"
    · by_cases ha : env.hasPydub <;>
        simp [_resolve_tool, List.find?, toolAvailable, h9, ha, ih]
    by_cases h10 : t = "py_docx"
    · by_cases ha : env.hasPythonDocx <;>
        simp [_resolve_tool, List.find?, toolAvailable, h10, ha, ih]
    by_cases h11 : t = "py_markdown"
    · by_cases ha : env.hasMarkdown <;>
        simp [_resolve_tool, List.find?, toolAvailable, h11, ha, ih]
    by_cases h12 : t = "py_pdf"
    · by_cases ha : env.hasFpdf <;>
        simp [_resolve_tool, List.find?, toolAvailable, h12, ha, ih]
    by_cases h13 : t = "py_yaml"
    · by_cases ha : env.hasPyyaml <;>
        simp [_resolve_tool, List.find?, toolAvailable, h13, ha, ih]
    by_cases h14 : t = "py_xlsx"
    · by_cases ha : env.hasOpenpyxl <;>
        simp [_resolve_tool, List.find?, toolAvailable, h14, ha, ih]
    by_cases h15 : t = "py_toml"
    · by_cases ha : env.hasToml <;>
        simp [_resolve_tool, List.find?, toolAvailable, h15, ha, ih]
    by_cases h16 : t = "py_epub"
    · by_cases ha : env.hasEbooklib <;>
        simp [_resolve_tool, List.find?, toolAvailable, h16, ha, ih]
    simp [_resolve_tool, List.find?, toolAvailable, check_command_availability,
      h1, h2, h3, h4, h5, h6, h7, h8, h9, h10, h11, h12, h13, h14, h15, h16, ih]

/-- C1: the tool resolver returns the first candidate in list order whose
availability rule holds (`none` for the empty list or when no candidate
resolves); `python`, `sips`, `afconvert`, `textutil` resolve immediately,
`ffmpeg`/`magick`/`pandoc` only when the availability prober confirms
presence, bundled-library identifiers only when the import succeeded; in
particular `resolve [t1, t2]` with only `t2` available returns `t2`, and
with `t1` available returns `t1`. -/
theorem resolver_first_available_in_order :
    (∀ env l, _resolve_tool env l = l.find? (toolAvailable env)) ∧
    (∀ env, _resolve_tool env [] = none) ∧
    (∀ env l, (∀ t ∈ l, toolAvailable env t = false) → _resolve_tool env l = none) ∧
    (∀ env, toolAvailable env "python" = true ∧ toolAvailable env "sips" = true ∧
      toolAvailable env "afconvert" = true ∧ toolAvailable env "textutil" = true) ∧
    (∀ env, toolAvailable env "ffmpeg" = check_command_availability env "ffmpeg" ∧
      toolAvailable env "magick" = (check_command_availability env "magick" || check_command_availability env "convert") ∧
      toolAvailable env "pandoc" = check_command_availability env "pandoc") ∧
    (∀ env, toolAvailable env "pillow" = env.hasPillow ∧
      toolAvailable env "pydub" = env.hasPydub ∧
      toolAvailable env "py_docx" = env.hasPythonDocx ∧
      toolAvailable env "py_markdown" = env.hasMarkdown ∧
      toolAvailable env "py_pdf" = env.hasFpdf ∧
      toolAvailable env "py_yaml" = env.hasPyyaml ∧
      toolAvailable env "py_xlsx" = env.hasOpenpyxl ∧
      toolAvailable env "py_toml" = env.hasToml ∧
      toolAvailable env "py_epub" = env.hasEbooklib) ∧
    (∀ env t1 t2, toolAvailable env t1 = false → toolAvailable env t2 = true →
      _resolve_tool env [t1, t2] = some t2) ∧
    (∀ env t1 t2, toolAvailable env t1 = true → _resolve_tool env [t1, t2] = some t1) := by
  refine ⟨resolve_eq_find, fun env => rfl, ?_, fun env => ⟨rfl, rfl, rfl, rfl⟩,
    fun env => ⟨rfl, rfl, rfl⟩, fun env => ⟨rfl, rfl, rfl, rfl, rfl, rfl, rfl, rfl, rfl⟩,
    ?_, ?_⟩
  · intro env l h
    rw [resolve_eq_find]
    exact List.find?_eq_none.mpr (fun t ht => by simp [h t ht])
  · intro env t1 t2 h1 h2
    rw [resolve_eq_find]
    simp [List.find?, h1, h2]
  · intro env t1 t2 h1
    rw [resolve_eq_find]
    simp [List.find?, h1]

/-- Witness for C1 at concrete inputs: with only `pandoc` installed,
`resolve ["ffmpeg", "pandoc"]` returns `pandoc`; with `ffmpeg` installed,
it returns `ffmpeg`. -/
theorem resolver_first_available_in_order_witness :
    _resolve_tool ⟨fun c => c == "pandoc", false, false, false, false, false, false, false, false, false⟩
      ["ffmpeg", "pandoc"] = some "pandoc" ∧
    _resolve_tool ⟨fun _ => true, false, false, false, false, false, false, false, false, false⟩
      ["ffmpeg", "pandoc"] = some "ffmpeg" := by
  constructor
  · exact resolver_first_available_in_order.2.2.2.2.2.2.1
      ⟨fun c => c == "pandoc", false, false, false, false, false, false, false, false, false⟩
      "ffmpeg" "pandoc" (by decide) (by decide)
  · exact resolver_first_available_in_order.2.2.2.2.2.2.2
      ⟨fun _ => true, false, false, false, false, false, false, false, false, false⟩
      "ffmpeg" "pandoc" (by decide)

/-- C2: `_tool_supports_target` is total by construction; `python` always
returns true; every other known tool returns membership of the lower-cased
format in its static set; unknown tools return false; and two format tokens
with the same lower-casing always get the same answer. -/
theorem supports_total_membership_case_insensitive :
    (∀ t, _tool_supports_target "python" t = true) ∧
    (∀ t, _tool_supports_target "sips" t = SIPS_FORMATS.contains (pyLowerS t) ∧
      _tool_supports_target "afconvert" t = AFCONVERT_FORMATS.contains (pyLowerS t) ∧
      _tool_supports_target "textutil" t = TEXTUTIL_FORMATS.contains (pyLowerS t) ∧
      _tool_supports_target "pandoc" t = PANDOC_FORMATS.contains (pyLowerS t) ∧
      _tool_supports_target "ffmpeg" t = FFMPEG_FORMATS.contains (pyLowerS t) ∧
      _tool_supports_target "magick" t = MAGICK_FORMATS.contains (pyLowerS t) ∧
      _tool_supports_target "pillow" t = PILLOW_FORMATS.contains (pyLowerS t) ∧
      _tool_supports_target "pydub" t = PYDUB_FORMATS.contains (pyLowerS t) ∧
      _tool_supports_target "py_docx" t = PY_DOCX_FORMATS.contains (pyLowerS t) ∧
      _tool_supports_target "py_markdown" t = PY_MARKDOWN_FORMATS.contains (pyLowerS t) ∧
      _tool_supports_target "py_pdf" t = PY_PDF_FORMATS.contains (pyLowerS t) ∧
      _tool_supports_target "py_yaml" t = PY_YAML_FORMATS.contains (pyLowerS t) ∧
      _tool_supports_target "py_xlsx" t = PY_XLSX_FORMATS.contains (pyLowerS t) ∧
      _tool_supports_target "py_toml" t = PY_TOML_FORMATS.contains (pyLowerS t) ∧
      _tool_supports_target "py_epub" t = PY_EPUB_FORMATS.contains (pyLowerS t)) ∧
    (∀ tool t, tool ∉ KNOWN_TOOLS → _tool_supports_target tool t = false) ∧
    (∀ tool s t, pyLowerS s = pyLowerS t →
      _tool_supports_target tool s = _tool_supports_target tool t) := by
  refine ⟨fun t => rfl,
    fun t => ⟨rfl, rfl, rfl, rfl, rfl, rfl, rfl, rfl, rfl, rfl, rfl, rfl, rfl, rfl, rfl⟩,
    ?_, ?_⟩
  · intro tool t h
    simp only [KNOWN_TOOLS, List.mem_cons, List.not_mem_nil, or_false, not_or] at h
    obtain ⟨n1, n2, n3, n4, n5, n6, n7, n8, n9, n10, n11, n12, n13, n14, n15, n16⟩ := h
    simp [_tool_supports_target, n1, n2, n3, n4, n5, n6, n7, n8, n9, n10, n11,
      n12, n13, n14, n15, n16]
  · intro tool s t h
    simp only [_tool_supports_target, h]

/-- Witness for C2: the unknown tool `frobnicator` supports nothing, and
`JPG`/`jpg` agree for `sips`. -/
theorem supports_total_membership_case_insensitive_witness :
    _tool_supports_target "frobnicator" "png" = false ∧
    _tool_supports_target "sips" "JPG" = _tool_supports_target "sips" "jpg" := by
  constructor
  · exact supports_total_membership_case_insensitive.2.2.1 "frobnicator" "png" (by decide)
  · exact supports_total_membership_case_insensitive.2.2.2 "sips" "JPG" "jpg" (by decide)

theorem categorizeWith_cons_pos {x : String × List String}
    {l : List (String × List String)} {ext : String}
    (hx : x.2.contains ext = true) : categorizeWith (x :: l) ext = x.1 := by
  simp only [categorizeWith, List.find?, hx]

theorem categorizeWith_cons_neg {x : String × List String}
    {l : List (String × List String)} {ext : String}
    (hx : x.2.contains ext = false) :
    categorizeWith (x :: l) ext = categorizeWith l ext := by
  simp only [categorizeWith, List.find?, hx]

/-- First-match categorization is invariant under reordering the table
whenever the table's extension sets are pairwise disjoint. -/
theorem categorizeWith_perm :
    ∀ {t₁ t₂ : List (String × List String)}, t₁.Perm t₂ →
      t₁.Pairwise (fun a b => ∀ e ∈ a.2, e ∉ b.2) →
      ∀ ext, categorizeWith t₁ ext = categorizeWith t₂ ext := by
  intro t₁ t₂ hperm
  induction hperm with
  | nil => intro _ _; rfl
  | cons x h ih =>
    intro hp ext
    rcases hb : x.2.contains ext with hfalse | htrue
    · rw [categorizeWith_cons_neg hb, categorizeWith_cons_neg hb]
      exact ih (List.Pairwise.of_cons hp) ext
    · rw [categorizeWith_cons_pos hb, categorizeWith_cons_pos hb]
  | swap x y l =>
    intro hp ext
    rcases hbx : x.2.contains ext with _ | _ <;> rcases hby : y.2.contains ext with _ | _
    · rw [categorizeWith_cons_neg hby, categorizeWith_cons_neg hbx,
        categorizeWith_cons_neg hbx, categorizeWith_cons_neg hby]
    · rw [categorizeWith_cons_pos hby, categorizeWith_cons_neg hbx,
        categorizeWith_cons_pos hby]
    · rw [categorizeWith_cons_neg hby, categorizeWith_cons_pos hbx,
        categorizeWith_cons_pos hbx]
    · exfalso
      have hr : ∀ e ∈ y.2, e ∉ x.2 :=
        (List.pairwise_cons.mp hp).1 x (List.mem_cons_self x l)
      have hex : ext ∈ x.2 := by simpa using hbx
      have hey : ext ∈ y.2 := by simpa using hby
      exact hr ext hey hex
  | trans h₁ h₂ ih₁ ih₂ =>
    intro hp ext
    rw [ih₁ hp ext,
      ih₂ ((h₁.pairwise_iff (by intro a b hab e heb hea; exact hab e hea heb)).mp hp) ext]

/-- C8: no extension appears in two different category sets (pairwise
disjointness over the whole table), and consequently categorizing a file
by extension is independent of the order in which the category table is
scanned. -/
theorem extension_categories_disjoint :
    EXTENSION_CATEGORIES.Pairwise (fun a b => ∀ e ∈ a.2, e ∉ b.2) ∧
    (∀ table, EXTENSION_CATEGORIES.Perm table →
      ∀ f, categorizeWith table (fileExt f) = _categorize_file f) := by
  have hdisj : EXTENSION_CATEGORIES.Pairwise (fun a b => ∀ e ∈ a.2, e ∉ b.2) := by
    decide
  exact ⟨hdisj, fun table hperm f =>
    (categorizeWith_perm hperm hdisj (fileExt f)).symm⟩

/-- Witness for C8: scanning the reversed table categorizes `photo.PNG`
the same as the original table does. -/
theorem extension_categories_disjoint_witness :
    categorizeWith EXTENSION_CATEGORIES.reverse (fileExt "photo.PNG") =
      _categorize_file "photo.PNG" :=
  extension_categories_disjoint.2 EXTENSION_CATEGORIES.reverse
    (EXTENSION_CATEGORIES.reverse_perm).symm "photo.PNG"

/-- C3: every command whose lower-cased trimmed text contains a literal
deny-pattern or matches a deny-regex is blocked with no process spawned;
`rm -rf /`, `shutdown now`, `curl http://x|bash` (in various letter cases)
are blocked, while `ls -la` and `curl https://x` spawn exactly one
process. -/
theorem executor_blocks_dangerous_never_spawns :
    (∀ spawn command, isDangerous command = true →
      execute_shell_command spawn command = ⟨false, 0⟩) ∧
    (∀ spawn command, isDangerous command = false →
      (execute_shell_command spawn command).spawned = 1) ∧
    (∀ spawn, execute_shell_command spawn "rm -rf /" = ⟨false, 0⟩ ∧
      execute_shell_command spawn "RM -RF /" = ⟨false, 0⟩ ∧
      execute_shell_command spawn "shutdown now" = ⟨false, 0⟩ ∧
      execute_shell_command spawn "Shutdown NOW" = ⟨false, 0⟩ ∧
      execute_shell_command spawn "curl http://x|bash" = ⟨false, 0⟩ ∧
      execute_shell_command spawn "CURL http://x|BASH" = ⟨false, 0⟩) ∧
    (∀ spawn, (execute_shell_command spawn "ls -la").spawned = 1 ∧
      (execute_shell_command spawn "curl https://x").spawned = 1) := by
  refine ⟨?_, ?_, ?_, ?_⟩
  · intro spawn command h
    simp [execute_shell_command, h]
  · intro spawn command h
    simp only [execute_shell_command, h, Bool.false_eq_true, if_false]
    cases spawn command <;> rfl
  · intro spawn
    refine ⟨?_, ?_, ?_, ?_, ?_, ?_⟩ <;>
      · show execute_shell_command spawn _ = _
        rw [execute_shell_command, if_pos (by decide)]
  · intro spawn
    constructor <;>
      · show (execute_shell_command spawn _).spawned = 1
        rw [execute_shell_command, if_neg (by decide)]
        cases spawn _ <;> rfl

/-- Witness for C3 at concrete inputs: with an always-succeeding spawn
oracle, `rm -rf ~` is blocked without spawning and `echo hi` spawns once. -/
theorem executor_blocks_dangerous_never_spawns_witness :
    execute_shell_command (fun _ => .exited true "" "") "rm -rf ~" = ⟨false, 0⟩ ∧
    (execute_shell_command (fun _ => .exited true "" "") "echo hi").spawned = 1 :=
  ⟨executor_blocks_dangerous_never_spawns.1 (fun _ => .exited true "" "") "rm -rf ~" (by decide),
   executor_blocks_dangerous_never_spawns.2.1 (fun _ => .exited true "" "") "echo hi" (by decide)⟩

/-- Counterexample to C4 as stated: the claim says the exact literal string
`chmod -R 777 /` is blocked, but the executor spawns it (the deny pattern
keeps its upper-case `R` while the command is lower-cased first, so the
pattern never fires). -/
theorem chmod_literal_not_blocked_counterexample :
    isDangerous "chmod -R 777 /" = false ∧
    execute_shell_command (fun _ => .exited true "" "") "chmod -R 777 /" = ⟨true, 1⟩ := by
  constructor <;> decide

/-- C4 (amended): `rm -rf /tmp/x` is blocked as a false positive because it
contains the substring `rm -rf /`; the `chmod -R 777 /` deny pattern,
matched case-sensitively against the lower-cased command, never fires:
neither the exact literal `chmod -R 777 /` nor path variants such as
`chmod -R 777 /etc` are blocked, and both spawn a process. -/
theorem safety_filter_boundary_behavior :
    (∀ spawn, execute_shell_command spawn "rm -rf /tmp/x" = ⟨false, 0⟩) ∧
    isSubstr (S "rm -rf /") (pyStrip (pyLower (S "rm -rf /tmp/x"))) = true ∧
    isDangerous "chmod -R 777 /" = false ∧
    isDangerous "chmod -R 777 /etc" = false ∧
    (∀ spawn, (execute_shell_command spawn "chmod -R 777 /").spawned = 1 ∧
      (execute_shell_command spawn "chmod -R 777 /etc").spawned = 1) := by
  refine ⟨?_, by decide, by decide, by decide, ?_⟩
  · intro spawn
    rw [execute_shell_command, if_pos (by decide)]
  · intro spawn
    constructor <;>
      · show (execute_shell_command spawn _).spawned = 1
        rw [execute_shell_command, if_neg (by decide)]
        cases spawn _ <;> rfl

/-- C5: when the capability filter empties the candidate list, the `pdf`
target (a Documents-category format) substitutes the fixed fallback list
`[pandoc, py_pdf]`, which is what gets resolved; any other target fails
with `NoCapableTool` for every environment (so no tool is consulted). -/
theorem dispatcher_pdf_fallback_or_no_capable_tool :
    (∀ (tool_list : List String) (target : String),
      tool_list.filter (fun t => _tool_supports_target t target) = [] →
      (target = "pdf" → capableStage tool_list target = Except.ok ["pandoc", "py_pdf"]) ∧
      (target ≠ "pdf" → capableStage tool_list target = Except.error ConvErr.NoCapableTool)) ∧
    (∀ env (input_file target_format : String) (tool_list : List String),
      candidateList (convertExt input_file) (normalizeTarget target_format) = some tool_list →
      tool_list.filter (fun t => _tool_supports_target t (normalizeTarget target_format)) = [] →
      (normalizeTarget target_format = "pdf" →
        convertPlan env true input_file target_format =
          (resolveStage env ["pandoc", "py_pdf"]).map
            (fun tool => ⟨tool, normalizeTarget target_format,
              convertOutputPath input_file (normalizeTarget target_format)⟩)) ∧
      (normalizeTarget target_format ≠ "pdf" →
        convertPlan env true input_file target_format =
          Except.error ConvErr.NoCapableTool)) := by
  have hstage : ∀ (tool_list : List String) (target : String),
      tool_list.filter (fun t => _tool_supports_target t target) = [] →
      (target = "pdf" → capableStage tool_list target = Except.ok ["pandoc", "py_pdf"]) ∧
      (target ≠ "pdf" → capableStage tool_list target = Except.error ConvErr.NoCapableTool) := by
    intro tool_list target hfilter
    constructor
    · intro hpdf
      subst hpdf
      simp only [capableStage, hfilter]
      rfl
    · intro hne
      have : (target == "pdf") = false := by
        simpa using hne
      simp [capableStage, hfilter, this]
  refine ⟨hstage, ?_⟩
  intro env input_file target_format tool_list hcand hfilter
  constructor
  · intro hpdf
    have hcap := (hstage tool_list _ hfilter).1 hpdf
    simp only [convertPlan, Bool.not_true, Bool.false_eq_true, if_false, hcand, hcap]
  · intro hne
    have hcap := (hstage tool_list _ hfilter).2 hne
    simp only [convertPlan, Bool.not_true, Bool.false_eq_true, if_false, hcand, hcap]

/-- Witness for C5 at concrete inputs: `movie.mp4 → pdf` has an empty
capability filter and rescues to `[pandoc, py_pdf]` (here unresolvable, so
the install offer names `pandoc`), while `notes.txt → pages` fails with
`NoCapableTool`. -/
theorem dispatcher_pdf_fallback_or_no_capable_tool_witness :
    convertPlan ⟨fun _ => false, false, false, false, false, false, false, false, false, false⟩
      true "movie.mp4" "pdf" =
      Except.error (ConvErr.ToolUnavailable (some "pandoc")) ∧
    convertPlan ⟨fun _ => false, false, false, false, false, false, false, false, false, false⟩
      true "notes.txt" "pages" = Except.error ConvErr.NoCapableTool := by
  constructor
  · have h := (dispatcher_pdf_fallback_or_no_capable_tool.2
      ⟨fun _ => false, false, false, false, false, false, false, false, false, false⟩
      "movie.mp4" "pdf" ["ffmpeg", "afconvert"] (by decide) (by decide)).1 (by decide)
    rw [h]
    rfl
  · exact (dispatcher_pdf_fallback_or_no_capable_tool.2
      ⟨fun _ => false, false, false, false, false, false, false, false, false, false⟩
      "notes.txt" "pages"
      ["textutil", "pandoc", "py_markdown", "py_pdf", "py_docx", "py_epub"]
      (by decide) (by decide)).2 (by decide)

theorem pathName_length_le (l : List Char) : (pathName l).length ≤ l.length := by
  unfold pathName
  rw [List.length_reverse]
  calc (List.takeWhile (fun c => c != '/') l.reverse).length
      ≤ l.reverse.length := (List.takeWhile_prefix _).length_le
    _ = l.length := List.length_reverse l

theorem pySuffix_length_le (l : List Char) :
    (pySuffix l).length ≤ (pathName l).length := by
  simp only [pySuffix]
  split
  · rw [List.length_drop]
    omega
  · simp

/-- The resize output path is strictly longer than the input path, hence a
different file. -/
theorem resizeOutPath_ne_input (p : String) : resizeOutPath p ≠ p := by
  intro h
  have hlen : (resizeOutPath p).data.length = p.data.length := by rw [h]
  have h1 : (pathName p.data).length ≤ p.data.length := pathName_length_le _
  have h2 : (pySuffix p.data).length ≤ (pathName p.data).length := pySuffix_length_le _
  have hdata : (resizeOutPath p).data =
      p.data.take (p.data.length - (pathName p.data).length) ++
        (pathName p.data).take ((pathName p.data).length - (pySuffix p.data).length) ++
        S "_small" ++
        (if (pyLower (pySuffix p.data)).isEmpty then S ".jpg"
         else pyLower (pySuffix p.data)) := rfl
  rw [hdata] at hlen
  rcases hsfx : pySuffix p.data with _ | ⟨c, cs⟩ <;> rw [hsfx] at hlen h2
  · simp only [pyLower, List.map_nil, List.isEmpty_nil, if_true, List.length_append,
      List.length_take, List.length_nil, S,
      show ("_small".data).length = 6 from rfl,
      show (".jpg".data).length = 4 from rfl] at hlen
    omega
  · simp only [pyLower, List.map_cons, List.isEmpty_cons, Bool.false_eq_true, if_false,
      List.length_append, List.length_take, List.length_cons, List.length_map, S,
      show ("_small".data).length = 6 from rfl] at hlen
    omega

/-- C10 (amended): the resize action writes one new file — the input's
stem plus `_small` plus the input's lower-cased suffix (or `.jpg` when the
input has no suffix), in the input's directory — never touching the input
file itself, and `scale`/`quality` default to `0.5`/`75` when absent. -/
theorem resize_writes_new_sibling_only :
    (∀ hasPillow fileExists plan,
      ∀ w ∈ (executeResize hasPillow fileExists plan).written, w.1 ≠ plan.input_file) ∧
    (∀ fileExists plan, plan.input_file ≠ "" → fileExists plan.input_file = true →
      (executeResize true fileExists plan).written =
        [(resizeOutPath plan.input_file,
          ImgWrite.resizedImage (plan.scale.getD ((1 : ℚ)/2)) (plan.quality.getD 75))]) ∧
    (∀ p, resizeOutPath p ≠ p) ∧
    (∀ p : String, (resizeOutPath p).data =
      p.data.take (p.data.length - (pathName p.data).length) ++ pyStem p.data ++
        S "_small" ++
        (if (pyLower (pySuffix p.data)).isEmpty then S ".jpg"
         else pyLower (pySuffix p.data))) := by
  refine ⟨?_, ?_, resizeOutPath_ne_input, fun p => rfl⟩
  · intro hasPillow fileExists plan w hw
    unfold executeResize at hw
    split at hw
    · simp at hw
    split at hw
    · simp at hw
    split at hw
    · simp at hw
    · simp only [List.mem_singleton] at hw
      subst hw
      exact resizeOutPath_ne_input plan.input_file
  · intro fileExists plan hne hfe
    unfold executeResize
    rw [if_neg (by simpa using hne), if_neg (by simp [hfe])]
    rfl

/-- Witness for the amended C10 at a concrete plan (no `scale`/`quality`
fields): resizing `photo.PNG` writes exactly `photo_small.png` with the
defaults. -/
theorem resize_writes_new_sibling_only_witness :
    (executeResize true (fun _ => true) ⟨"photo.PNG", none, none⟩).written =
      [(resizeOutPath "photo.PNG",
        ImgWrite.resizedImage ((1 : ℚ)/2) 75)] :=
  resize_writes_new_sibling_only.2.1 (fun _ => true) ⟨"photo.PNG", none, none⟩
    (by decide) rfl

/-- Counterexample to C10 as stated: for a suffix-less input the file
written is `photo_small.jpg` (the code substitutes a `.jpg` default), not
the claimed stem + `_small` + lower-cased suffix, which would be
`photo_small`. -/
theorem resize_suffixless_counterexample :
    (executeResize true (fun _ => true) ⟨"photo", none, none⟩).written =
      [("photo_small.jpg", ImgWrite.resizedImage ((1 : ℚ)/2) 75)] ∧
    (S "photo_small.jpg" ≠ pyStem (S "photo") ++ S "_small" ++ pyLower (pySuffix (S "photo"))) := by
  constructor
  · rfl
  · decide

theorem jsonToCsvBranch_writes (d : JData) (out : String) :
    ∀ w ∈ (jsonToCsvBranch d out).written, w.1 = out := by
  intro w hw
  unfold jsonToCsvBranch at hw
  repeat' (first | split at hw | dsimp only [] at hw)
  all_goals
    first
      | (cases hw with
         | head => rfl
         | tail _ h => cases h)
      | cases hw

theorem jsonToXlsxBranch_writes (d : JData) (out : String) :
    ∀ w ∈ (jsonToXlsxBranch d out).written, w.1 = out := by
  intro w hw
  unfold jsonToXlsxBranch at hw
  repeat' (first | split at hw | dsimp only [] at hw)
  all_goals
    first
      | (cases hw with
         | head => rfl
         | tail _ h => cases h)
      | cases hw

theorem xlsxToJsonBranch_writes (rows : List (List JData)) (out : String) :
    ∀ w ∈ (xlsxToJsonBranch rows out).written, w.1 = out := by
  intro w hw
  unfold xlsxToJsonBranch at hw
  repeat' (first | split at hw | dsimp only [] at hw)
  all_goals
    first
      | (cases hw with
         | head => rfl
         | tail _ h => cases h)
      | cases hw

theorem convert_data_writes_only_output (env : ToolEnv) (input : InContent)
    (ext target out : String) :
    ∀ w ∈ (_convert_data env input ext target out).written, w.1 = out := by
  unfold _convert_data
  by_cases c1 : (ext == ".json" && target == "csv") = true
  · rw [if_pos c1]
    rcases input with d | t | rows
    · exact jsonToCsvBranch_writes d out
    · intro w hw; cases hw
    · intro w hw; cases hw
  rw [if_neg c1]
  by_cases c2 : (ext == ".csv" && target == "json") = true
  · rw [if_pos c2]
    rcases input with d | t | rows
    · intro w hw; cases hw
    · intro w hw
      cases hw with
      | head => rfl
      | tail _ h => cases h
    · intro w hw; cases hw
  rw [if_neg c2]
  by_cases c3 : (ext == ".json" && (target == "yaml" || target == "yml") && env.hasPyyaml) = true
  · rw [if_pos c3]
    rcases input with d | t | rows
    · intro w hw
      cases hw with
      | head => rfl
      | tail _ h => cases h
    · intro w hw; cases hw
    · intro w hw; cases hw
  rw [if_neg c3]
  by_cases c4 : ((ext == ".yaml" || ext == ".yml") && target == "json" && env.hasPyyaml) = true
  · rw [if_pos c4]
    rcases input with d | t | rows
    · intro w hw
      cases hw with
      | head => rfl
      | tail _ h => cases h
    · intro w hw; cases hw
    · intro w hw; cases hw
  rw [if_neg c4]
  by_cases c5 : (ext == ".json" && target == "xlsx" && env.hasOpenpyxl) = true
  · rw [if_pos c5]
    rcases input with d | t | rows
    · exact jsonToXlsxBranch_writes d out
    · intro w hw; cases hw
    · intro w hw; cases hw
  rw [if_neg c5]
  by_cases c6 : (ext == ".csv" && target == "xlsx" && env.hasOpenpyxl) = true
  · rw [if_pos c6]
    rcases input with d | t | rows
    · intro w hw; cases hw
    · intro w hw
      cases hw with
      | head => rfl
      | tail _ h => cases h
    · intro w hw; cases hw
  rw [if_neg c6]
  by_cases c7 : (ext == ".xlsx" && target == "csv" && env.hasOpenpyxl) = true
  · rw [if_pos c7]
    rcases input with d | t | rows
    · intro w hw; cases hw
    · intro w hw; cases hw
    · intro w hw
      cases hw with
      | head => rfl
      | tail _ h => cases h
  rw [if_neg c7]
  by_cases c8 : (ext == ".xlsx" && target == "json" && env.hasOpenpyxl) = true
  · rw [if_pos c8]
    rcases input with d | t | rows
    · intro w hw; cases hw
    · intro w hw; cases hw
    · exact xlsxToJsonBranch_writes rows out
  rw [if_neg c8]
  by_cases c9 : (ext == ".json" && target == "toml" && env.hasToml) = true
  · rw [if_pos c9]
    rcases input with d | t | rows
    · rcases d with s | lex | b | _ | items | fs
      · intro w hw; cases hw
      · intro w hw; cases hw
      · intro w hw; cases hw
      · intro w hw; cases hw
      · intro w hw; cases hw
      · intro w hw
        cases hw with
        | head => rfl
        | tail _ h => cases h
    · intro w hw; cases hw
    · intro w hw; cases hw
  rw [if_neg c9]
  by_cases c10 : (ext == ".toml" && target == "json" && env.hasToml) = true
  · rw [if_pos c10]
    rcases input with d | t | rows
    · intro w hw
      cases hw with
      | head => rfl
      | tail _ h => cases h
    · intro w hw; cases hw
    · intro w hw; cases hw
  rw [if_neg c10]
  intro w hw; cases hw

theorem convert_data_unsupported (env : ToolEnv) (input : InContent)
    (ext target out : String)
    (h : dataPairSupported env ext target = false) :
    _convert_data env input ext target out = ⟨ConvRes.failed, []⟩ := by
  simp only [dataPairSupported, Bool.or_eq_false_iff] at h
  obtain ⟨⟨⟨⟨⟨⟨⟨⟨⟨h1, h2⟩, h3⟩, h4⟩, h5⟩, h6⟩, h7⟩, h8⟩, h9⟩, h10⟩ := h
  simp only [_convert_data, h1, h2, h3, h4, h5, h6, h7, h8, h9, h10,
    Bool.false_eq_true, if_false]

/-- C7: the in-process data converter fails closed and atomically — every
(extension, target) pair outside its branch guards returns failure with no
file written; an empty JSON array to CSV (or XLSX) returns failure with no
file written; every write it ever performs goes to the output path, never
to the input. -/
theorem convert_data_fails_closed :
    (∀ env input ext target out, dataPairSupported env ext target = false →
      _convert_data env input ext target out = ⟨ConvRes.failed, []⟩) ∧
    (∀ env out, _convert_data env (InContent.parsed (JData.jarr [])) ".json" "csv" out =
      ⟨ConvRes.failed, []⟩) ∧
    (∀ env out, _convert_data env (InContent.parsed (JData.jarr [])) ".json" "xlsx" out =
      ⟨ConvRes.failed, []⟩) ∧
    (∀ env input ext target out,
      ∀ w ∈ (_convert_data env input ext target out).written, w.1 = out) ∧
    (∀ env input ext target out inputPath, inputPath ≠ out →
      ∀ w ∈ (_convert_data env input ext target out).written, w.1 ≠ inputPath) := by
  refine ⟨convert_data_unsupported, fun env out => rfl, ?_, convert_data_writes_only_output, ?_⟩
  · intro env out
    by_cases hx : env.hasOpenpyxl
    · unfold _convert_data
      rw [if_neg (by simp), if_neg (by simp), if_neg (by simp), if_neg (by simp),
        if_pos (by simp [hx])]
      rfl
    · unfold _convert_data
      rw [if_neg (by simp), if_neg (by simp), if_neg (by simp), if_neg (by simp),
        if_neg (by simp [hx]), if_neg (by simp [hx]), if_neg (by simp),
        if_neg (by simp), if_neg (by simp), if_neg (by simp)]
  · intro env input ext target out inputPath hne w hw
    rw [convert_data_writes_only_output env input ext target out w hw]
    exact fun he => hne he.symm

/-! ### CSV writer/reader round trip -/

theorem escQuote_subset (f : List Char) : ∀ c ∈ escQuote f, c = '"' ∨ c ∈ f := by
  induction f with
  | nil => intro c hc; cases hc
  | cons a rest ih =>
    intro c hc
    by_cases ha : (a == '"') = true
    · simp only [escQuote, ha, if_true] at hc
      rcases List.mem_cons.mp hc with rfl | hc2
      · exact Or.inl rfl
      rcases List.mem_cons.mp hc2 with rfl | hc3
      · exact Or.inl rfl
      rcases ih c hc3 with h | h
      · exact Or.inl h
      · exact Or.inr (List.mem_cons_of_mem a h)
    · simp only [escQuote, ha, Bool.false_eq_true, if_false] at hc
      rcases List.mem_cons.mp hc with rfl | hc2
      · exact Or.inr (List.mem_cons_self _ _)
      rcases ih c hc2 with h | h
      · exact Or.inl h
      · exact Or.inr (List.mem_cons_of_mem a h)

theorem encodeField_subset (f : List Char) : ∀ c ∈ encodeField f, c = '"' ∨ c ∈ f := by
  intro c hc
  unfold encodeField at hc
  by_cases hq : needsQuote f = true
  · rw [if_pos hq] at hc
    rcases List.mem_cons.mp hc with rfl | hc2
    · exact Or.inl rfl
    rcases List.mem_append.mp hc2 with hc3 | hc3
    · exact escQuote_subset f c hc3
    · rcases List.mem_singleton.mp hc3 with rfl
      exact Or.inl rfl
  · rw [if_neg hq] at hc
    exact Or.inr hc

theorem encodeRowBody_subset (r : List (List Char)) :
    ∀ c ∈ encodeRowBody r, c = '"' ∨ c = ',' ∨ ∃ f ∈ r, c ∈ f := by
  induction r with
  | nil => intro c hc; cases hc
  | cons f rest ih =>
    intro c hc
    cases rest with
    | nil =>
      rcases encodeField_subset f c hc with h | h
      · exact Or.inl h
      · exact Or.inr (Or.inr ⟨f, List.mem_cons_self _ _, h⟩)
    | cons f2 rest2 =>
      rw [show encodeRowBody (f :: f2 :: rest2) =
        encodeField f ++ ',' :: encodeRowBody (f2 :: rest2) from rfl] at hc
      rcases List.mem_append.mp hc with hc2 | hc2
      · rcases encodeField_subset f c hc2 with h | h
        · exact Or.inl h
        · exact Or.inr (Or.inr ⟨f, List.mem_cons_self _ _, h⟩)
      rcases List.mem_cons.mp hc2 with rfl | hc3
      · exact Or.inr (Or.inl rfl)
      rcases ih c hc3 with h | h | ⟨g, hg, hcg⟩
      · exact Or.inl h
      · exact Or.inr (Or.inl h)
      · exact Or.inr (Or.inr ⟨g, List.mem_cons_of_mem f hg, hcg⟩)

theorem univNL_cons_ne {c : Char} (hc : c ≠ '\r') (l : List Char) :
    univNL (c :: l) = c :: univNL l := by
  have hb : (c == '\r') = false := by simpa using hc
  rw [univNL.eq_def]
  dsimp only []
  rw [hb]
  simp

theorem univNL_append_noCR {xs : List Char} (h : ∀ c ∈ xs, c ≠ '\r') (l : List Char) :
    univNL (xs ++ l) = xs ++ univNL l := by
  induction xs with
  | nil => rfl
  | cons c cs ih =>
    rw [List.cons_append, univNL_cons_ne (h c (List.mem_cons_self c cs)),
      ih (fun x hx => h x (List.mem_cons_of_mem c hx))]
    rfl

theorem univNL_crlf (l : List Char) : univNL ('\r' :: '\n' :: l) = '\n' :: univNL l := by
  rw [univNL.eq_def]
  rfl

/-- Universal-newline reading of writer output: when no field contains a
carriage return, only the CRLF row terminators are rewritten. -/
theorem univNL_encodeCsv (rows : List (List (List Char)))
    (h : ∀ r ∈ rows, ∀ f ∈ r, ∀ c ∈ f, c ≠ '\r') :
    univNL (encodeCsv rows) = encodeCsvLF rows := by
  induction rows with
  | nil => rfl
  | cons r rs ih =>
    have hbody : ∀ c ∈ (if r == [([] : List Char)] then S "\"\"" else encodeRowBody r),
        c ≠ '\r' := by
      intro c hc
      by_cases hr : (r == [([] : List Char)]) = true
      · rw [if_pos hr] at hc
        rcases List.mem_cons.mp hc with rfl | hc2
        · decide
        rcases List.mem_cons.mp hc2 with rfl | hc3
        · decide
        · cases hc3
      · rw [if_neg hr] at hc
        rcases encodeRowBody_subset r c hc with rfl | rfl | ⟨f, hf, hcf⟩
        · decide
        · decide
        · exact h r (List.mem_cons_self _ _) f hf c hcf
    show univNL (encodeRow r ++ encodeCsv rs) = encodeRowLF r ++ encodeCsvLF rs
    rw [encodeRow, encodeRowLF, List.append_assoc,
      show S "\r\n" ++ encodeCsv rs = '\r' :: '\n' :: encodeCsv rs from rfl,
      univNL_append_noCR hbody, univNL_crlf,
      ih (fun r2 h2 => h r2 (List.mem_cons_of_mem _ h2)), List.append_assoc]
    rfl

theorem consume_inField {cs : List Char}
    (h : ∀ c ∈ cs, c ≠ ',' ∧ c ≠ '"' ∧ c ≠ '\r' ∧ c ≠ '\n') :
    ∀ fieldAcc row rows,
      List.foldl csvStep ⟨CsvMode.inField, fieldAcc, row, rows⟩ cs =
        ⟨CsvMode.inField, cs.reverse ++ fieldAcc, row, rows⟩ := by
  induction cs with
  | nil => intro _ _ _; rfl
  | cons c cs ih =>
    intro fieldAcc row rows
    obtain ⟨h1, h2, h3, h4⟩ := h c (List.mem_cons_self _ _)
    rw [List.foldl_cons]
    have hstep : csvStep ⟨CsvMode.inField, fieldAcc, row, rows⟩ c =
        ⟨CsvMode.inField, c :: fieldAcc, row, rows⟩ := by
      have b1 : (c == ',') = false := by simpa using h1
      have b3 : (c == '\r') = false := by simpa using h3
      have b4 : (c == '\n') = false := by simpa using h4
      simp [csvStep, csvStepCore, b1, b3, b4]
    rw [hstep, ih (fun x hx => h x (List.mem_cons_of_mem _ hx))]
    simp

theorem consume_inQuoted (cs : List Char) :
    ∀ fieldAcc row rows,
      List.foldl csvStep ⟨CsvMode.inQuoted, fieldAcc, row, rows⟩ (escQuote cs) =
        ⟨CsvMode.inQuoted, cs.reverse ++ fieldAcc, row, rows⟩ := by
  induction cs with
  | nil => intro _ _ _; rfl
  | cons c cs ih =>
    intro fieldAcc row rows
    by_cases hc : (c == '"') = true
    · have hcq : c = '"' := by simpa using hc
      subst hcq
      rw [show escQuote ('"' :: cs) = '"' :: '"' :: escQuote cs from by simp [escQuote],
        List.foldl_cons, List.foldl_cons,
        show csvStep ⟨CsvMode.inQuoted, fieldAcc, row, rows⟩ '"' =
          ⟨CsvMode.quoteInQuoted, fieldAcc, row, rows⟩ from rfl,
        show csvStep ⟨CsvMode.quoteInQuoted, fieldAcc, row, rows⟩ '"' =
          ⟨CsvMode.inQuoted, '"' :: fieldAcc, row, rows⟩ from rfl,
        ih]
      simp
    · rw [show escQuote (c :: cs) = c :: escQuote cs from by simp [escQuote, hc],
        List.foldl_cons]
      have hstep : csvStep ⟨CsvMode.inQuoted, fieldAcc, row, rows⟩ c =
          ⟨CsvMode.inQuoted, c :: fieldAcc, row, rows⟩ := by
        simp [csvStep, csvStepCore, hc]
      rw [hstep, ih]
      simp

theorem consume_encodeField (f : List Char) (row : List (List Char))
    (rows : List (List (List Char))) :
    List.foldl csvStep ⟨CsvMode.startField, [], row, rows⟩ (encodeField f) =
      afterFieldSt f row rows := by
  by_cases hq : needsQuote f = true
  · rw [encodeField, if_pos hq, afterFieldSt, if_pos hq, List.foldl_cons,
      show csvStep ⟨CsvMode.startField, [], row, rows⟩ '"' =
        ⟨CsvMode.inQuoted, [], row, rows⟩ from rfl,
      List.foldl_append, consume_inQuoted, List.foldl_cons,
      show csvStep ⟨CsvMode.inQuoted, f.reverse ++ [], row, rows⟩ '"' =
        ⟨CsvMode.quoteInQuoted, f.reverse ++ [], row, rows⟩ from rfl]
    simp
  · rw [encodeField, if_neg hq, afterFieldSt, if_neg hq]
    have hq2 : ∀ x ∈ f, ((¬x = ',' ∧ ¬x = '"') ∧ ¬x = '\r') ∧ ¬x = '\n' := by
      simpa [needsQuote] using hq
    have hall : ∀ x ∈ f, x ≠ ',' ∧ x ≠ '"' ∧ x ≠ '\r' ∧ x ≠ '\n' := by
      intro x hx
      obtain ⟨⟨⟨a, b⟩, c⟩, d⟩ := hq2 x hx
      exact ⟨a, b, c, d⟩
    cases f with
    | nil => rfl
    | cons c cs =>
      obtain ⟨h1, h2, h3, h4⟩ := hall c (List.mem_cons_self _ _)
      rw [List.foldl_cons]
      have hstep : csvStep ⟨CsvMode.startField, [], row, rows⟩ c =
          ⟨CsvMode.inField, [c], row, rows⟩ := by
        have b1 : (c == ',') = false := by simpa using h1
        have b2 : (c == '"') = false := by simpa using h2
        have b3 : (c == '\r') = false := by simpa using h3
        have b4 : (c == '\n') = false := by simpa using h4
        simp [csvStep, csvStepCore, b1, b2, b3, b4]
      rw [hstep, consume_inField (fun x hx => hall x (List.mem_cons_of_mem _ hx))]
      simp [List.isEmpty_cons]

theorem step_afterField_comma (f : List Char) (row : List (List Char))
    (rows : List (List (List Char))) :
    csvStep (afterFieldSt f row rows) ',' =
      ⟨CsvMode.startField, [], f :: row, rows⟩ := by
  unfold afterFieldSt
  by_cases hq : needsQuote f = true
  · rw [if_pos hq]
    simp [csvStep, csvStepCore]
  · rw [if_neg hq]
    by_cases he : f.isEmpty = true
    · rw [if_pos he]
      have hf : f = [] := by simpa [List.isEmpty_iff] using he
      subst hf
      rfl
    · rw [if_neg he]
      simp [csvStep, csvStepCore]

theorem step_afterField_nl (f : List Char) (row : List (List Char))
    (rows : List (List (List Char))) (hnb : ¬(f = [] ∧ row = [])) :
    csvStep (afterFieldSt f row rows) '\n' =
      ⟨CsvMode.startField, [], [], ((f :: row).reverse) :: rows⟩ := by
  unfold afterFieldSt
  by_cases hq : needsQuote f = true
  · rw [if_pos hq]
    simp [csvStep, csvStepCore]
  · rw [if_neg hq]
    by_cases he : f.isEmpty = true
    · rw [if_pos he]
      have hf : f = [] := by simpa [List.isEmpty_iff] using he
      subst hf
      have hrow : row.isEmpty = false := by
        rcases row with _ | ⟨r0, rest⟩
        · exact absurd ⟨rfl, rfl⟩ hnb
        · rfl
      simp [csvStep, csvStepCore, hrow]
    · rw [if_neg he]
      simp [csvStep, csvStepCore]

theorem consume_body (fs : List (List Char)) :
    ∀ row rows, fs ≠ [] → ¬(fs = [[]] ∧ row = []) →
      List.foldl csvStep ⟨CsvMode.startField, [], row, rows⟩ (encodeRowBody fs ++ ['\n']) =
        ⟨CsvMode.startField, [], [], (row.reverse ++ fs) :: rows⟩ := by
  induction fs with
  | nil => intro _ _ h _; exact absurd rfl h
  | cons f rest ih =>
    intro row rows _ hnb
    cases rest with
    | nil =>
      rw [show encodeRowBody [f] = encodeField f from rfl, List.foldl_append,
        consume_encodeField,
        show List.foldl csvStep (afterFieldSt f row rows) ['\n'] =
          csvStep (afterFieldSt f row rows) '\n' from rfl,
        step_afterField_nl f row rows (fun hp => hnb ⟨by rw [hp.1], hp.2⟩)]
      simp
    | cons f2 rest2 =>
      have hsplit : encodeRowBody (f :: f2 :: rest2) ++ ['\n'] =
          encodeField f ++ (',' :: (encodeRowBody (f2 :: rest2) ++ ['\n'])) := by
        rw [show encodeRowBody (f :: f2 :: rest2) =
          encodeField f ++ ',' :: encodeRowBody (f2 :: rest2) from rfl]
        simp
      have hih := ih (f :: row) rows (List.cons_ne_nil _ _)
        (fun hp => (List.cons_ne_nil f row) hp.2)
      rw [hsplit, List.foldl_append, consume_encodeField, List.foldl_cons,
        step_afterField_comma, hih]
      simp

theorem consume_encodeRowLF (r : List (List Char))
    (rows : List (List (List Char))) :
    List.foldl csvStep ⟨CsvMode.startField, [], [], rows⟩ (encodeRowLF r) =
      ⟨CsvMode.startField, [], [], r :: rows⟩ := by
  by_cases hr : (r == [([] : List Char)]) = true
  · have : r = [[]] := by simpa using hr
    subst this
    rfl
  · rw [encodeRowLF, if_neg hr]
    cases r with
    | nil => rfl
    | cons f rest =>
      have hne : ¬(f :: rest = [[]] ∧ ([] : List (List Char)) = []) := by
        intro hp
        have hr2 : (f :: rest) ≠ [[]] := by simpa using hr
        exact hr2 hp.1
      have := consume_body (f :: rest) [] rows (List.cons_ne_nil _ _) hne
      simpa using this

theorem consume_encodeCsvLF (rows : List (List (List Char))) :
    ∀ acc, List.foldl csvStep ⟨CsvMode.startField, [], [], acc⟩ (encodeCsvLF rows) =
      ⟨CsvMode.startField, [], [], rows.reverse ++ acc⟩ := by
  induction rows with
  | nil => intro acc; rfl
  | cons r rs ih =>
    intro acc
    rw [show encodeCsvLF (r :: rs) = encodeRowLF r ++ encodeCsvLF rs from rfl,
      List.foldl_append, consume_encodeRowLF, ih]
    simp

/-- The reader is a left inverse of the writer (LF-terminated form). -/
theorem csvParse_encodeCsvLF (rows : List (List (List Char))) :
    csvParse (encodeCsvLF rows) = rows := by
  unfold csvParse initCsvSt
  rw [consume_encodeCsvLF rows []]
  simp [csvFinish]

/-- The reader is a left inverse of the writer through text-mode reading,
whenever no field contains a carriage return. -/
theorem csvParse_univNL_encodeCsv (rows : List (List (List Char)))
    (h : ∀ r ∈ rows, ∀ f ∈ r, ∀ c ∈ f, c ≠ '\r') :
    csvParse (univNL (encodeCsv rows)) = rows := by
  rw [univNL_encodeCsv rows h, csvParse_encodeCsvLF]

theorem dictWriterRows_wf (headers : List (List Char)) :
    ∀ recs : List JRec,
      (∀ r ∈ recs, ∀ kv ∈ r, kv.1 ∈ headers) →
      dictWriterRows headers (recs.map JData.jobj) =
        (recs.map (rowOfRec headers), true) := by
  intro recs
  induction recs with
  | nil => intro _; rfl
  | cons r rs ih =>
    intro h
    have hnone : (r.any (fun kv => !headers.contains kv.1)) = false := by
      rw [List.any_eq_false]
      intro kv hkv
      simp [h r (List.mem_cons_self _ _) kv hkv]
    rw [List.map_cons]
    show dictWriterRows headers (JData.jobj r :: rs.map JData.jobj) = _
    rw [show dictWriterRows headers (JData.jobj r :: List.map JData.jobj rs) =
        if r.any (fun kv => !headers.contains kv.1) then ([], false)
        else
          ((headers.map (fun h => csvCell ((r.lookup h).getD (JData.jstr [])))) ::
            (dictWriterRows headers (rs.map JData.jobj)).1,
           (dictWriterRows headers (rs.map JData.jobj)).2) from rfl,
      hnone, ih (fun x hx => h x (List.mem_cons_of_mem _ hx))]
    rfl

theorem lookup_map_self (g : List Char → JData) :
    ∀ (l : List (List Char)) (k : List Char), k ∈ l →
      (l.map (fun h => (h, g h))).lookup k = some (g k) := by
  intro l
  induction l with
  | nil => intro k hk; cases hk
  | cons h hs ih =>
    intro k hk
    rw [List.map_cons, List.lookup_cons]
    by_cases he : (k == h) = true
    · rw [he]
      have : k = h := by simpa using he
      subst this
      rfl
    · have hb : (k == h) = false := by simpa using he
      rw [hb]
      rcases List.mem_cons.mp hk with rfl | hk2
      · simp at he
      · exact ih k hk2

theorem lookup_mem_keys {r : JRec} {k : List Char} {x : JData}
    (h : r.lookup k = some x) : k ∈ r.map Prod.fst := by
  induction r with
  | nil => cases h
  | cons kv rest ih =>
    rw [List.lookup_cons] at h
    by_cases he : (k == kv.1) = true
    · have : k = kv.1 := by simpa using he
      subst this
      exact List.mem_cons_self _ _
    · have hb : (k == kv.1) = false := by simpa using he
      rw [hb] at h
      exact List.mem_cons_of_mem _ (ih h)

theorem zip_self_map {α β : Type} (g : α → β) :
    ∀ l : List α, l.zip (l.map g) = l.map (fun a => (a, g a)) := by
  intro l
  induction l with
  | nil => rfl
  | cons a rest ih => simp [ih]

/-- A full-width row read back by `DictReader` is exactly the original
record with all values as strings. -/
theorem dictRowOf_rowOfRec (headers : List (List Char)) (r : JRec) :
    dictRowOf headers (rowOfRec headers r) =
      JData.jobj (headers.map (fun h => (h, JData.jstr (recVal r h)))) := by
  unfold dictRowOf rowOfRec
  rw [List.length_map, List.drop_length, if_neg (lt_irrefl _), zip_self_map]
  simp [List.map_map, Function.comp]

/-- `jsonToCsvBranch` on wellformed records writes header plus one row per
record. -/
theorem jsonToCsvBranch_wf (r0 : JRec) (rest : List JRec) (out : String)
    (hkeys : ∀ r ∈ r0 :: rest, ∀ kv ∈ r, kv.1 ∈ r0.map Prod.fst) :
    jsonToCsvBranch (JData.jarr ((r0 :: rest).map JData.jobj)) out =
      ⟨ConvRes.success,
       [(out, OutContent.csvText (encodeCsv
          ((r0.map Prod.fst) :: (r0 :: rest).map (rowOfRec (r0.map Prod.fst)))))]⟩ := by
  have hdw := dictWriterRows_wf (r0.map Prod.fst) (r0 :: rest) hkeys
  show jsonToCsvBranch (JData.jarr (JData.jobj r0 :: rest.map JData.jobj)) out = _
  unfold jsonToCsvBranch
  rw [show jsonToCsvData (JData.jarr (JData.jobj r0 :: List.map JData.jobj rest)) =
    some (JData.jobj r0 :: List.map JData.jobj rest) from rfl]
  dsimp only []
  rw [← List.map_cons, hdw]
  rfl

theorem convert_data_json_csv (env : ToolEnv) (d : JData) (out : String) :
    _convert_data env (InContent.parsed d) ".json" "csv" out =
      jsonToCsvBranch d out := rfl

theorem convert_data_csv_json (env : ToolEnv) (t : List Char) (out : String) :
    _convert_data env (InContent.rawText t) ".csv" "json" out =
      ⟨ConvRes.success, [(out, OutContent.jsonText (csvToJsonData t))]⟩ := rfl

/-- Reading the wellformed CSV back yields one string-valued record per
original record. -/
theorem csvToJsonData_roundtrip (r0 : JRec) (rest : List JRec)
    (hcols : r0.map Prod.fst ≠ [])
    (hvals : ∀ r ∈ r0 :: rest, ∀ h ∈ r0.map Prod.fst, strCellNoCR (r.lookup h) = true)
    (hhead : ∀ h ∈ r0.map Prod.fst, h.any (fun c => c == '\r') = false) :
    csvToJsonData (encodeCsv
        ((r0.map Prod.fst) :: (r0 :: rest).map (rowOfRec (r0.map Prod.fst)))) =
      JData.jarr ((r0 :: rest).map (fun r =>
        JData.jobj ((r0.map Prod.fst).map (fun h => (h, JData.jstr (recVal r h)))))) := by
  have hcell : ∀ r ∈ r0 :: rest, ∀ h ∈ r0.map Prod.fst, ∀ c ∈ recVal r h, c ≠ '\r' := by
    intro r hr h hh c hc
    have hv := hvals r hr h hh
    unfold strCellNoCR at hv
    rcases hl : (r.lookup h) with _ | v
    · rw [hl] at hv; cases hv
    rcases v with s | lex | b | _ | items | fs <;> rw [hl] at hv
    case jstr =>
      have hs : s.any (fun x => x == '\r') = false := by simpa using hv
      have hcv : recVal r h = s := by simp [recVal, hl, csvCell, pyStr]
      rw [hcv] at hc
      have := (List.any_eq_false.mp hs) c hc
      simpa using this
    all_goals cases hv
  have hnocr : ∀ r ∈ (r0.map Prod.fst) :: (r0 :: rest).map (rowOfRec (r0.map Prod.fst)),
      ∀ f ∈ r, ∀ c ∈ f, c ≠ '\r' := by
    intro row hrow f hf c hc
    rcases List.mem_cons.mp hrow with rfl | hrow2
    · have hh : f.any (fun x => x == '\r') = false := hhead f hf
      have := (List.any_eq_false.mp hh) c hc
      simpa using this
    · rcases List.mem_map.mp hrow2 with ⟨r, hr, rfl⟩
      rcases List.mem_map.mp hf with ⟨h, hh2, rfl⟩
      exact hcell r hr h hh2 c hc
  unfold csvToJsonData
  rw [csvParse_univNL_encodeCsv _ hnocr]
  dsimp only []
  have hfilter : ((r0 :: rest).map (rowOfRec (r0.map Prod.fst))).filter
      (fun r => !r.isEmpty) = (r0 :: rest).map (rowOfRec (r0.map Prod.fst)) := by
    rw [List.filter_eq_self]
    intro row hrow
    rcases List.mem_map.mp hrow with ⟨r, _, rfl⟩
    have hne : rowOfRec (r0.map Prod.fst) r ≠ [] := by
      unfold rowOfRec
      intro he
      exact hcols (List.map_eq_nil_iff.mp he)
    simpa [List.isEmpty_iff] using hne
  rw [hfilter, List.map_map]
  congr 1
  apply List.map_congr_left
  intro r _
  exact dictRowOf_rowOfRec (r0.map Prod.fst) r

/-- C6 (amended): for a non-empty list of flat JSON objects that all share
the keys of the first object, of which there is at least one, whose values
are all strings, and where no key or value contains a carriage return,
converting to CSV and the resulting CSV back to JSON yields the same
number of records with an identical string value for every field present
in the original.  (The no-carriage-return side condition is forced by
text-mode universal-newline reading of the CSV; the at-least-one-key side
condition by blank-row skipping — see the counterexample.) -/
theorem json_csv_json_roundtrip (env : ToolEnv) (r0 : JRec) (rest : List JRec)
    (hcols : r0.map Prod.fst ≠ [])
    (hkeys : ∀ r ∈ r0 :: rest, ∀ kv ∈ r, kv.1 ∈ r0.map Prod.fst)
    (hvals : ∀ r ∈ r0 :: rest, ∀ h ∈ r0.map Prod.fst, strCellNoCR (r.lookup h) = true)
    (hhead : ∀ h ∈ r0.map Prod.fst, h.any (fun c => c == '\r') = false) :
    ∃ t : List Char, ∃ outRecs : List JRec,
      _convert_data env (InContent.parsed (JData.jarr ((r0 :: rest).map JData.jobj)))
          ".json" "csv" "mid.csv" =
        ⟨ConvRes.success, [("mid.csv", OutContent.csvText t)]⟩ ∧
      _convert_data env (InContent.rawText t) ".csv" "json" "out.json" =
        ⟨ConvRes.success,
         [("out.json", OutContent.jsonText (JData.jarr (outRecs.map JData.jobj)))]⟩ ∧
      outRecs.length = (r0 :: rest).length ∧
      (∀ i (hi : i < (r0 :: rest).length) (hi2 : i < outRecs.length),
        ∀ k v, ((r0 :: rest).get ⟨i, hi⟩).lookup k = some (JData.jstr v) →
          (outRecs.get ⟨i, hi2⟩).lookup k = some (JData.jstr v)) := by
  refine ⟨encodeCsv ((r0.map Prod.fst) :: (r0 :: rest).map (rowOfRec (r0.map Prod.fst))),
    (r0 :: rest).map (fun r =>
      (r0.map Prod.fst).map (fun h => (h, JData.jstr (recVal r h)))),
    ?_, ?_, by simp, ?_⟩
  · rw [convert_data_json_csv, jsonToCsvBranch_wf r0 rest _ hkeys]
  · rw [convert_data_csv_json, csvToJsonData_roundtrip r0 rest hcols hvals hhead,
      List.map_map]
    rfl
  · intro i hi hi2 k v hlk
    have hget : ((r0 :: rest).map (fun r =>
        (r0.map Prod.fst).map (fun h => (h, JData.jstr (recVal r h))))).get ⟨i, hi2⟩ =
        (r0.map Prod.fst).map
          (fun h => (h, JData.jstr (recVal ((r0 :: rest).get ⟨i, hi⟩) h))) := by
      rw [List.get_map]
    rw [hget]
    have hk : k ∈ r0.map Prod.fst := by
      have hkm := lookup_mem_keys hlk
      rcases List.mem_map.mp hkm with ⟨kv, hkv, rfl⟩
      exact hkeys _ (List.get_mem _ _ _) kv hkv
    have := lookup_map_self (fun h => JData.jstr (recVal ((r0 :: rest).get ⟨i, hi⟩) h))
      (r0.map Prod.fst) k hk
    rw [this]
    have hrv : recVal ((r0 :: rest).get ⟨i, hi⟩) k = v := by
      unfold recVal
      rw [hlk]
      rfl
    simp only []
    rw [hrv]

/-- Witness for the amended C6 at concrete records
`[{"a": "1"}, {"a": "2"}]`. -/
theorem json_csv_json_roundtrip_witness :
    ∃ t : List Char, ∃ outRecs : List JRec,
      _convert_data ⟨fun _ => false, false, false, false, false, false, false, false, false, false⟩
          (InContent.parsed (JData.jarr
            (([(S "a", JData.jstr (S "1"))] ::
              [[(S "a", JData.jstr (S "2"))]]).map JData.jobj)))
          ".json" "csv" "mid.csv" =
        ⟨ConvRes.success, [("mid.csv", OutContent.csvText t)]⟩ ∧
      _convert_data ⟨fun _ => false, false, false, false, false, false, false, false, false, false⟩
          (InContent.rawText t) ".csv" "json" "out.json" =
        ⟨ConvRes.success,
         [("out.json", OutContent.jsonText (JData.jarr (outRecs.map JData.jobj)))]⟩ ∧
      outRecs.length = ([(S "a", JData.jstr (S "1"))] ::
        [[(S "a", JData.jstr (S "2"))]]).length ∧
      (∀ i (hi : i < ([(S "a", JData.jstr (S "1"))] ::
          [[(S "a", JData.jstr (S "2"))]]).length) (hi2 : i < outRecs.length),
        ∀ k v, (([(S "a", JData.jstr (S "1"))] ::
            [[(S "a", JData.jstr (S "2"))]]).get ⟨i, hi⟩).lookup k =
              some (JData.jstr v) →
          (outRecs.get ⟨i, hi2⟩).lookup k = some (JData.jstr v)) :=
  json_csv_json_roundtrip
    ⟨fun _ => false, false, false, false, false, false, false, false, false, false⟩
    [(S "a", JData.jstr (S "1"))] [[(S "a", JData.jstr (S "2"))]]
    (by decide) (by decide) (by decide) (by decide)

/-- Counterexample to C6 as stated: the single empty object `[{}]`
satisfies the claim's hypotheses (vacuously sharing the keys of the first
object, all values strings), yet the round trip loses the record: the CSV
written is two blank lines, `DictReader` takes the first as (empty)
fieldnames and skips the second as a blank row, so zero records come back
instead of one. -/
theorem roundtrip_empty_object_counterexample :
    _convert_data ⟨fun _ => false, false, false, false, false, false, false, false, false, false⟩
        (InContent.parsed (JData.jarr [JData.jobj []])) ".json" "csv" "mid.csv" =
      ⟨ConvRes.success, [("mid.csv", OutContent.csvText (S "\r\n\r\n"))]⟩ ∧
    _convert_data ⟨fun _ => false, false, false, false, false, false, false, false, false, false⟩
        (InContent.rawText (S "\r\n\r\n")) ".csv" "json" "out.json" =
      ⟨ConvRes.success, [("out.json", OutContent.jsonText (JData.jarr []))]⟩ ∧
    ([] : List JData).length ≠ [JData.jobj ([] : JRec)].length :=
  ⟨rfl, rfl, by decide⟩

theorem convert_data_fails_closed_witness :
    _convert_data ⟨fun _ => false, false, false, false, false, false, true, true, true, true⟩
      (InContent.rawText []) ".xml" "json" "out.json" = ⟨ConvRes.failed, []⟩ ∧
    (∀ w ∈ (_convert_data ⟨fun _ => false, false, false, false, false, false, true, true, true, true⟩
      (InContent.rawText []) ".xml" "json" "out.json").written, w.1 ≠ "in.xml") :=
  ⟨convert_data_fails_closed.1 _ (InContent.rawText []) ".xml" "json" "out.json" (by decide),
   convert_data_fails_closed.2.2.2.2 _ (InContent.rawText []) ".xml" "json" "out.json"
     "in.xml" (by decide)⟩

theorem hexDigit_ne_nl : ∀ n < 16, hexDigit n ≠ '\n' := by decide

theorem escChar_no_nl (c : Char) : '\n' ∉ escChar c := by
  unfold escChar
  split_ifs with h1 h2 h3 h4 h5 h6 h7 h8
  · decide
  · decide
  · decide
  · decide
  · decide
  · decide
  · decide
  · intro hmem
    have hm16 : c.toNat % 16 < 16 := Nat.mod_lt _ (by omega)
    have hd16 : c.toNat / 16 < 16 := by omega
    simp only [List.mem_cons, List.not_mem_nil, or_false] at hmem
    rcases hmem with h | h | h | h | h | h
    · cases h
    · cases h
    · cases h
    · cases h
    · exact hexDigit_ne_nl _ hd16 h.symm
    · exact hexDigit_ne_nl _ hm16 h.symm
  · intro hmem
    rcases List.mem_singleton.mp hmem with rfl
    simp at h3

theorem escBody_no_nl (s : List Char) : '\n' ∉ escBody s := by
  induction s with
  | nil => simp [escBody]
  | cons c rest ih =>
    intro hmem
    rcases List.mem_append.mp hmem with h | h
    · exact escChar_no_nl c h
    · exact ih h

theorem escString_no_nl (s : List Char) : '\n' ∉ escString s := by
  intro hmem
  rcases List.mem_cons.mp hmem with h | h
  · cases h
  rcases List.mem_append.mp h with h2 | h2
  · exact escBody_no_nl s h2
  · exact absurd (List.mem_singleton.mp h2) (by decide)

theorem dumpsItems_no_nl :
    ∀ items : List JData, (∀ x ∈ items, '\n' ∉ jsonDumps x) → '\n' ∉ dumpsItems items := by
  intro items
  induction items with
  | nil => intro _; simp [dumpsItems]
  | cons x rest ih =>
    intro hx
    cases rest with
    | nil => exact hx x (List.mem_cons_self _ _)
    | cons y r2 =>
      intro hmem
      rw [show dumpsItems (x :: y :: r2) =
        jsonDumps x ++ ',' :: ' ' :: dumpsItems (y :: r2) from rfl] at hmem
      rcases List.mem_append.mp hmem with h | h
      · exact hx x (List.mem_cons_self _ _) h
      rcases List.mem_cons.mp h with h2 | h2
      · cases h2
      rcases List.mem_cons.mp h2 with h3 | h3
      · cases h3
      · exact ih (fun z hz => hx z (List.mem_cons_of_mem _ hz)) h3

theorem dumpsFields_no_nl :
    ∀ fields : List (List Char × JData),
      (∀ kv ∈ fields, '\n' ∉ jsonDumps kv.2) → '\n' ∉ dumpsFields fields := by
  intro fields
  induction fields with
  | nil => intro _; simp [dumpsFields]
  | cons kv rest ih =>
    intro hx
    cases rest with
    | nil =>
      intro hmem
      rw [show dumpsFields [kv] = escString kv.1 ++ ':' :: ' ' :: jsonDumps kv.2 from rfl]
        at hmem
      rcases List.mem_append.mp hmem with h | h
      · exact escString_no_nl kv.1 h
      rcases List.mem_cons.mp h with h2 | h2
      · cases h2
      rcases List.mem_cons.mp h2 with h3 | h3
      · cases h3
      · exact hx kv (List.mem_cons_self _ _) h3
    | cons kv2 r2 =>
      intro hmem
      rw [show dumpsFields (kv :: kv2 :: r2) =
        escString kv.1 ++ ':' :: ' ' :: jsonDumps kv.2 ++ ',' :: ' ' :: dumpsFields (kv2 :: r2)
        from rfl] at hmem
      rcases List.mem_append.mp hmem with h | h
      · rcases List.mem_append.mp h with ha | hb
        · exact escString_no_nl kv.1 ha
        rcases List.mem_cons.mp hb with h2 | h2
        · cases h2
        rcases List.mem_cons.mp h2 with h3 | h3
        · cases h3
        · exact hx kv (List.mem_cons_self _ _) h3
      rcases List.mem_cons.mp h with h5 | h5
      · cases h5
      rcases List.mem_cons.mp h5 with h6 | h6
      · cases h6
      · exact ih (fun z hz => hx z (List.mem_cons_of_mem _ hz)) h6

theorem objUpsert_vals {P : JData → Prop} {acc : List (List Char × JData)}
    {k : List Char} {v : JData}
    (hacc : ∀ kv ∈ acc, P kv.2) (hv : P v) :
    ∀ kv ∈ objUpsert acc k v, P kv.2 := by
  intro kv hkv
  unfold objUpsert at hkv
  split at hkv
  · rcases List.mem_map.mp hkv with ⟨kv0, hkv0, rfl⟩
    by_cases hk : (kv0.1 == k) = true
    · rw [if_pos hk]
      exact hv
    · rw [if_neg hk]
      exact hacc kv0 hkv0
  · rcases List.mem_append.mp hkv with h | h
    · exact hacc _ h
    · rcases List.mem_singleton.mp h with rfl
      exact hv

theorem buildDict_vals {P : JData → Prop} :
    ∀ ps : List (List Char × JData), (∀ kv ∈ ps, P kv.2) →
      ∀ kv ∈ buildDict ps, P kv.2 := by
  have haux : ∀ ps acc : List (List Char × JData), (∀ kv ∈ acc, P kv.2) →
      (∀ kv ∈ ps, P kv.2) →
      ∀ kv ∈ ps.foldl (fun acc kv => objUpsert acc kv.1 kv.2) acc, P kv.2 := by
    intro ps
    induction ps with
    | nil => intro acc hacc _ kv hkv; exact hacc kv hkv
    | cons p rest ih =>
      intro acc hacc hps kv hkv
      rw [List.foldl_cons] at hkv
      exact ih (objUpsert acc p.1 p.2)
        (objUpsert_vals hacc (hps p (List.mem_cons_self _ _)))
        (fun z hz => hps z (List.mem_cons_of_mem _ hz)) kv hkv
  intro ps hps
  exact haux ps [] (fun kv hkv => by cases hkv) hps

theorem jstr_no_nl (s : List Char) : '\n' ∉ jsonDumps (JData.jstr s) := by
  simp only [jsonDumps]
  exact escString_no_nl s

theorem jnum_no_nl (lex : List Char) (h : '\n' ∉ lex) : '\n' ∉ jsonDumps (JData.jnum lex) := by
  simp only [jsonDumps]
  exact h

theorem jarr_no_nl (vs : List JData) (hv : ∀ x ∈ vs, '\n' ∉ jsonDumps x) :
    '\n' ∉ jsonDumps (JData.jarr vs) := by
  intro hm
  simp only [jsonDumps] at hm
  rcases List.mem_cons.mp hm with h | h
  · cases h
  rcases List.mem_append.mp h with h | h
  · exact dumpsItems_no_nl vs hv h
  · exact absurd (List.mem_singleton.mp h) (by decide)

theorem jobj_no_nl (fs : List (List Char × JData)) (hf : ∀ kv ∈ fs, '\n' ∉ jsonDumps kv.2) :
    '\n' ∉ jsonDumps (JData.jobj fs) := by
  intro hm
  simp only [jsonDumps] at hm
  rcases List.mem_cons.mp hm with h | h
  · cases h
  rcases List.mem_append.mp h with h | h
  · exact dumpsFields_no_nl fs hf h
  · exact absurd (List.mem_singleton.mp h) (by decide)

theorem nl_not_mem_takeWhile_num (l : List Char) : '\n' ∉ l.takeWhile numLexChar := by
  intro hm
  have := List.mem_takeWhile_imp hm
  simp [numLexChar, isDigit] at this

set_option maxHeartbeats 3200000 in
/-- Anything `json.loads` accepts re-serializes without a newline:
`json.dumps` with default separators stays on one line. -/
theorem parse_dumps_no_nl :
    ∀ fuel : Nat,
      (∀ l v r, parseVal fuel l = some (v, r) → '\n' ∉ jsonDumps v) ∧
      (∀ l vs r, parseArrElems fuel l = some (vs, r) → ∀ x ∈ vs, '\n' ∉ jsonDumps x) ∧
      (∀ l ms r, parseObjMembers fuel l = some (ms, r) → ∀ kv ∈ ms, '\n' ∉ jsonDumps kv.2) := by
  intro fuel
  induction fuel with
  | zero =>
    refine ⟨?_, ?_, ?_⟩
    · intro l v r h
      simp [parseVal] at h
    · intro l vs r h
      simp [parseArrElems] at h
    · intro l ms r h
      simp [parseObjMembers] at h
  | succ fuel ih =>
    obtain ⟨ihV, ihA, ihO⟩ := ih
    refine ⟨?_, ?_, ?_⟩
    · intro l v r h
      simp only [parseVal] at h
      split at h
      · exact Option.noConfusion h
      · split at h
        · split at h
          · rename_i s r2 heq1
            injection h with h1
            injection h1 with h2 h3
            subst h2
            exact jstr_no_nl s
          · exact Option.noConfusion h
        · split at h
          · split at h
            · injection h with h1
              injection h1 with h2 h3
              subst h2
              exact jobj_no_nl [] (fun kv hkv => absurd hkv (List.not_mem_nil kv))
            · split at h
              · rename_i ms r2 heq2
                injection h with h1
                injection h1 with h2 h3
                subst h2
                exact jobj_no_nl _
                  (@buildDict_vals (fun d => '\n' ∉ jsonDumps d) ms
                    (fun kv hkv => ihO _ _ _ heq2 kv hkv))
              · exact Option.noConfusion h
          · split at h
            · split at h
              · injection h with h1
                injection h1 with h2 h3
                subst h2
                exact jarr_no_nl [] (fun x hx => absurd hx (List.not_mem_nil x))
              · split at h
                · rename_i vs r2 heq2
                  injection h with h1
                  injection h1 with h2 h3
                  subst h2
                  exact jarr_no_nl vs (ihA _ _ _ heq2)
                · exact Option.noConfusion h
            · split at h
              · injection h with h1
                injection h1 with h2 h3
                subst h2
                decide
              · split at h
                · injection h with h1
                  injection h1 with h2 h3
                  subst h2
                  decide
                · split at h
                  · injection h with h1
                    injection h1 with h2 h3
                    subst h2
                    decide
                  · split at h
                    · injection h with h1
                      injection h1 with h2 h3
                      subst h2
                      decide
                    · split at h
                      · injection h with h1
                        injection h1 with h2 h3
                        subst h2
                        decide
                      · split at h
                        · injection h with h1
                          injection h1 with h2 h3
                          subst h2
                          decide
                        · split at h
                          · injection h with h1
                            injection h1 with h2 h3
                            subst h2
                            exact jnum_no_nl _ (nl_not_mem_takeWhile_num _)
                          · exact Option.noConfusion h
    · intro l vs r h
      simp only [parseArrElems] at h
      split at h
      · exact Option.noConfusion h
      · rename_i v r1 heq1
        split at h
        · split at h
          · rename_i vs2 r3 heq2
            injection h with h1
            injection h1 with h2 h3
            subst h2
            intro x hx
            rcases List.mem_cons.mp hx with rfl | hx2
            · exact ihV _ _ _ heq1
            · exact ihA _ _ _ heq2 x hx2
          · exact Option.noConfusion h
        · injection h with h1
          injection h1 with h2 h3
          subst h2
          intro x hx
          rcases List.mem_singleton.mp hx with rfl
          exact ihV _ _ _ heq1
        · exact Option.noConfusion h
    · intro l ms r h
      simp only [parseObjMembers] at h
      split at h
      · split at h
        · exact Option.noConfusion h
        · rename_i k r2 heq1
          split at h
          · split at h
            · exact Option.noConfusion h
            · rename_i v r4 heq2
              split at h
              · split at h
                · rename_i ms2 r6 heq3
                  injection h with h1
                  injection h1 with h2 h3
                  subst h2
                  intro kv hkv
                  rcases List.mem_cons.mp hkv with rfl | hkv2
                  · exact ihV _ _ _ heq2
                  · exact ihO _ _ _ heq3 kv hkv2
                · exact Option.noConfusion h
              · injection h with h1
                injection h1 with h2 h3
                subst h2
                intro kv hkv
                rcases List.mem_singleton.mp hkv with rfl
                exact ihV _ _ _ heq2
              · exact Option.noConfusion h
          · exact Option.noConfusion h
      · exact Option.noConfusion h

theorem jsonLoads_no_nl {l : List Char} {v : JData} (h : jsonLoads l = some v) :
    '\n' ∉ jsonDumps v := by
  unfold jsonLoads at h
  split at h
  · rename_i v2 r heq
    split at h
    · injection h with h1
      subst h1
      exact (parse_dumps_no_nl _).1 _ _ _ heq
    · exact Option.noConfusion h
  · exact Option.noConfusion h

theorem fallback_no_nl (cleaned : List Char) : '\n' ∉ jsonDumps (fallbackPlan cleaned) := by
  apply jobj_no_nl
  intro kv hkv
  rcases List.mem_cons.mp hkv with rfl | h2
  · exact jstr_no_nl _
  rcases List.mem_singleton.mp h2 with rfl
  exact jstr_no_nl _

/-- C9 (amended): for an unknown agent name, `dispatch` exits 1 and never
calls the LLM; for a valid agent, whatever the reply, it exits 0, calls
the LLM exactly once, and prints exactly one line that is the
serialization of a JSON value; when the fence-stripped reply does not
parse as JSON that line is the fallback plan, which carries an `action`
field. (The claim's further promise that the line always contains an
`action` field fails: a reply that parses as non-object JSON, such as
`42`, is re-serialized verbatim.) -/
theorem dispatch_contract (agent : String) (reply : List Char) :
    (agent ∉ VALID_AGENTS → dispatch agent reply = ⟨1, [], 0⟩) ∧
    (agent ∈ VALID_AGENTS →
      (dispatch agent reply).exitCode = 0 ∧
      (dispatch agent reply).llmCalls = 1 ∧
      (∃ v : JData, (dispatch agent reply).stdoutLine = jsonDumps v ∧
        '\n' ∉ (dispatch agent reply).stdoutLine) ∧
      (jsonLoads (stripFences reply) = none →
        (dispatch agent reply).stdoutLine = jsonDumps (fallbackPlan (stripFences reply)) ∧
          hasActionField (fallbackPlan (stripFences reply)) = true)) := by
  constructor
  · intro hna
    unfold dispatch
    rw [if_neg hna]
  · intro hmem
    unfold dispatch
    rw [if_pos hmem]
    dsimp only []
    cases hj : jsonLoads (stripFences reply) with
    | some v =>
      exact ⟨rfl, rfl, ⟨v, rfl, jsonLoads_no_nl hj⟩,
        fun hn => Option.noConfusion hn⟩
    | none =>
      exact ⟨rfl, rfl, ⟨fallbackPlan (stripFences reply), rfl, fallback_no_nl _⟩,
        fun _ => ⟨rfl, rfl⟩⟩

theorem dispatch_contract_witness :
    dispatch "bogus" (S "hello") = ⟨1, [], 0⟩ ∧
    (dispatch "summarize" (S "hello")).exitCode = 0 ∧
    (dispatch "summarize" (S "hello")).llmCalls = 1 ∧
    (dispatch "summarize" (S "hello")).stdoutLine =
      jsonDumps (fallbackPlan (stripFences (S "hello"))) := by
  refine ⟨(dispatch_contract "bogus" (S "hello")).1 (by decide), ?_⟩
  have h := (dispatch_contract "summarize" (S "hello")).2 (by decide)
  exact ⟨h.1, h.2.1, (h.2.2.2 rfl).1⟩

/-- C9 counterexample: a valid agent whose LLM reply is `42` — valid JSON
but not an object — makes `dispatch` print `42` verbatim: one line of
valid JSON, but with no `action` field (the text does not even contain
the substring `action`). -/
theorem dispatch_nonobject_reply_counterexample :
    dispatch "convert" (S "42") = ⟨0, S "42", 1⟩ ∧
    jsonLoads (stripFences (S "42")) = some (JData.jnum (S "42")) ∧
    hasActionField (JData.jnum (S "42")) = false ∧
    isSubstr (S "action") (dispatch "convert" (S "42")).stdoutLine = false := by
  refine ⟨by decide, rfl, rfl, by decide⟩

end Alfred
